import Mathlib

/-!
Shallow embedding of the cache simulator from `cachesim.h` / `cachesim.cpp`
(set-associative and fully-associative cache levels, miss-handler chaining,
miss-trace callback, hierarchy builder), together with proofs about it.

Machine integers are modelled as `Nat`; `uint64_t` arithmetic is reduced
modulo `2^64` wherever the C computation can wrap (counter increments,
the left shift reconstructing a victim's physical address).  Bitwise
operations on values already below `2^64` need no further reduction.
-/

/-- Bit 63 of a line tag (`cache_sim_t::VALID`). -/
def VALID : Nat := 2 ^ 63

/-- Bit 62 of a line tag (`cache_sim_t::DIRTY`). -/
def DIRTY : Nat := 2 ^ 62

/-- Size of the `uint64_t` value space. -/
def U64 : Nat := 2 ^ 64

/-- Bitwise complement of `m` inside 64 bits: the value of `~m` on a
`uint64_t`, for `m < 2^64`.  Since `2^64 - 1` has all 64 bits set, the
subtraction never borrows and flips exactly the bits of `m`. -/
def compl64 (m : Nat) : Nat := U64 - 1 - m

/-- Iteration count of the loop `for (x = n; x > 1; x >>= 1) count++` from
`cache_sim_t::init`, with the first argument as (always sufficient) fuel:
the loop halves its argument, so it runs at most `n` times. -/
def ilog2Aux : Nat → Nat → Nat
  | 0, _ => 0
  | fuel + 1, n => if n ≤ 1 then 0 else ilog2Aux fuel (n / 2) + 1

/-- Computation of `idx_shift` from `linesz` (`cache_sim_t::init`), equal
to `Nat.log2` but defined by structural recursion so that it evaluates. -/
def ilog2 (n : Nat) : Nat := ilog2Aux n n

/-- State of the 32-bit LFSR used for victim-way selection (`class lfsr_t`,
`cachesim.h`).  The register is seeded with 1 by the constructor. -/
structure lfsr_t where
  reg : Nat
deriving DecidableEq, Repr

/-- One step of the LFSR: `reg = (reg>>1) ^ (-(reg&1) & 0xd0000001)`.
In `uint32_t` arithmetic `-(reg&1)` is `0xffffffff` when the low bit is set
and `0` otherwise, so the conjunction with the polynomial is either the
polynomial or zero.  Returns the new register value together with the new
state (the C function returns the updated register). -/
def lfsr_t.next (l : lfsr_t) : Nat × lfsr_t :=
  let r := (l.reg >>> 1) ^^^ (if l.reg &&& 1 = 1 then 0xd0000001 else 0)
  (r, ⟨r⟩)

/-- One call to `cache_sim_t::access` or to the miss-trace callback:
virtual address, physical address, size in bytes, and the store flag. -/
structure acall where
  vaddr : Nat
  paddr : Nat
  size : Nat
  store : Bool
deriving DecidableEq, Repr

/-- State of one cache level (`class cache_sim_t`).  `tags` and `srcs` are
the flat `sets*ways` arrays; `has_mh` records whether `set_miss_handler`
installed a next level (the pointer itself lives outside the level, so the
level's own transition function reports the calls it would issue to the
handler instead of performing them). -/
structure cache_sim_t where
  sets : Nat
  ways : Nat
  linesz : Nat
  idx_shift : Nat
  lfsr : lfsr_t
  tags : List Nat
  srcs : List Nat
  read_accesses : Nat
  read_misses : Nat
  bytes_read : Nat
  write_accesses : Nat
  write_misses : Nat
  bytes_written : Nat
  writebacks : Nat
  trace_miss : Bool
  has_mh : Bool
deriving DecidableEq, Repr

/-- Set index of an address, `(addr >> idx_shift) & (sets-1)` (the local
`idx` of `check_tag` and `victimize`). -/
def cache_sim_t.setIdx (c : cache_sim_t) (addr : Nat) : Nat :=
  (addr >>> c.idx_shift) &&& (c.sets - 1)

/-- Tag of an address, `(addr >> idx_shift) | VALID` (the local `tag` of
`check_tag`, also the value installed by `victimize`). -/
def cache_sim_t.tagOf (c : cache_sim_t) (addr : Nat) : Nat :=
  (addr >>> c.idx_shift) ||| VALID

/-- Line mask of a level: `~(linesz-1)` as a `uint64_t`. -/
def cache_sim_t.lineMask (c : cache_sim_t) : Nat := compl64 (c.linesz - 1)

/-- The way `victimize` will evict next: `lfsr.next() % ways`. -/
def cache_sim_t.vWay (c : cache_sim_t) : Nat := (c.lfsr.next).1 % c.ways

/-- Tag lookup (`cache_sim_t::check_tag`): scan the `ways` slots of the set
selected by `(addr >> idx_shift) & (sets-1)` for a slot whose value, with
`DIRTY` masked off, equals `(addr >> idx_shift) | VALID`.  Returns the flat
index of the first matching slot (the C function returns a pointer into
`tags`), or `none`. -/
def cache_sim_t.check_tag (c : cache_sim_t) (addr : Nat) : Option Nat :=
  ((List.range c.ways).find?
      (fun i => c.tagOf addr == (c.tags.getD (c.setIdx addr * c.ways + i) 0) &&& compl64 DIRTY)).map
    (fun i => c.setIdx addr * c.ways + i)

/-- Victim selection (`cache_sim_t::victimize`): pick
`way = lfsr.next() % ways`, return the displaced tag and its recorded
source address, and overwrite the slot with `(addr >> idx_shift) | VALID`
and the new source. -/
def cache_sim_t.victimize (c : cache_sim_t) (addr src : Nat) : Nat × Nat × cache_sim_t :=
  let victim := c.tags.getD (c.setIdx addr * c.ways + c.vWay) 0
  let victim_src := c.srcs.getD (c.setIdx addr * c.ways + c.vWay) 0
  (victim, victim_src,
    { c with
      lfsr := (c.lfsr.next).2
      tags := c.tags.set (c.setIdx addr * c.ways + c.vWay) (c.tagOf addr)
      srcs := c.srcs.set (c.setIdx addr * c.ways + c.vWay) src })

/-- The hot path (`cache_sim_t::access`).  Returns `none` exactly when the
C code dereferences the null pointer returned by the second `check_tag`
(store miss whose refill failed to install a findable tag); otherwise
returns the new level state, the list of calls issued to the miss handler
(writeback first, then refill, each present only when a handler is
installed), and the list of miss-trace callback invocations. -/
def cache_sim_t.access (c : cache_sim_t) (vaddr paddr bytes : Nat) (store : Bool) :
    Option (cache_sim_t × List acall × List acall) :=
  let vaddr := vaddr % U64
  let paddr := paddr % U64
  let bytes := bytes % U64
  let c1 :=
    if store then
      { c with
        write_accesses := (c.write_accesses + 1) % U64
        bytes_written := (c.bytes_written + bytes) % U64 }
    else
      { c with
        read_accesses := (c.read_accesses + 1) % U64
        bytes_read := (c.bytes_read + bytes) % U64 }
  match c1.check_tag paddr with
  | some i =>
      if store then
        some ({ c1 with tags := c1.tags.set i (c1.tags.getD i 0 ||| DIRTY) }, [], [])
      else
        some (c1, [], [])
  | none =>
      let lm := c1.lineMask
      let mcb : List acall :=
        if c1.trace_miss then [⟨vaddr &&& lm, paddr &&& lm, c1.linesz, store⟩] else []
      let c2 :=
        if store then { c1 with write_misses := (c1.write_misses + 1) % U64 }
        else { c1 with read_misses := (c1.read_misses + 1) % U64 }
      let v := c2.victimize paddr (vaddr &&& lm)
      let victim := v.1
      let victim_src := v.2.1
      let c3 := v.2.2
      let wbp :=
        if victim &&& (VALID ||| DIRTY) = VALID ||| DIRTY then
          ({ c3 with writebacks := (c3.writebacks + 1) % U64 },
            if c3.has_mh then
              [(⟨victim_src, ((victim &&& compl64 (VALID ||| DIRTY)) <<< c3.idx_shift) % U64,
                  c3.linesz, true⟩ : acall)]
            else [])
        else (c3, ([] : List acall))
      let c4 := wbp.1
      let wb := wbp.2
      let refill : List acall :=
        if c4.has_mh then [⟨vaddr &&& lm, paddr &&& lm, c4.linesz, false⟩] else []
      if store then
        match c4.check_tag paddr with
        | some i =>
            some ({ c4 with tags := c4.tags.set i (c4.tags.getD i 0 ||| DIRTY) },
              wb ++ refill, mcb)
        | none => none
      else
        some (c4, wb ++ refill, mcb)

/-- A freshly constructed level (`cache_sim_t::init` after a successful
geometry check): zeroed tag and source arrays, zeroed counters, LFSR seeded
with 1, `idx_shift = log2 linesz` (the `for (x = linesz; x > 1; x >>= 1)`
loop computes exactly `Nat.log2`), no handler, tracing off.  The flags
`hm` and `tm` record whether `set_miss_handler` / `enable_trace_miss` were
called on the level after construction; neither affects the stored state,
only which calls `access` reports. -/
def freshLevel (sets ways linesz : Nat) (hm tm : Bool) : cache_sim_t :=
  { sets := sets
    ways := ways
    linesz := linesz
    idx_shift := ilog2 linesz
    lfsr := ⟨1⟩
    tags := List.replicate (sets * ways) 0
    srcs := List.replicate (sets * ways) 0
    read_accesses := 0
    read_misses := 0
    bytes_read := 0
    write_accesses := 0
    write_misses := 0
    bytes_written := 0
    writebacks := 0
    trace_miss := tm
    has_mh := hm }

/-- Model of `cache_sim_t::set_miss_handler`. -/
def cache_sim_t.set_miss_handler (c : cache_sim_t) : cache_sim_t := { c with has_mh := true }

/-- Model of `cache_sim_t::enable_trace_miss`. -/
def cache_sim_t.enable_tm (c : cache_sim_t) : cache_sim_t := { c with trace_miss := true }

/-- Drive a sequence of calls into one level, concatenating the
miss-handler calls and the callback invocations it produces. -/
def feedCalls (c : cache_sim_t) : List acall → Option (cache_sim_t × List acall × List acall)
  | [] => some (c, [], [])
  | a :: rest =>
    match c.access a.vaddr a.paddr a.size a.store with
    | none => none
    | some (c1, ds1, mb1) =>
      match feedCalls c1 rest with
      | none => none
      | some (c2, ds2, mb2) => some (c2, ds1 ++ ds2, mb1 ++ mb2)

/-- State reached by a level after a sequence of accesses (`none` if any
access crashed). -/
def runState (c : cache_sim_t) : List acall → Option cache_sim_t
  | [] => some c
  | a :: rest =>
    match c.access a.vaddr a.paddr a.size a.store with
    | none => none
    | some (c1, _, _) => runState c1 rest

/-- Two chained set-associative levels: every access goes to `l1`, and the
calls `l1` issues to its miss handler are replayed, in order, into `l2`
(this is exactly the call structure of `miss_handler->access` in the C
code, since a called level never re-enters its caller). -/
def run2 (l1 l2 : cache_sim_t) : List acall → Option (cache_sim_t × cache_sim_t)
  | [] => some (l1, l2)
  | a :: rest =>
    match l1.access a.vaddr a.paddr a.size a.store with
    | none => none
    | some (l1x, ds, _) =>
      match feedCalls l2 ds with
      | none => none
      | some (l2x, _, _) => run2 l1x l2x rest

/-- Update in place the value stored under key `k` in an association list
(models writing through the pointer `&it->second` obtained from
`std::map::find`); keys are unchanged. -/
def updValue : List (Nat × Nat) → Nat → Nat → List (Nat × Nat)
  | [], _, _ => []
  | (a, b) :: rest, k, v => if a = k then (a, v) :: rest else (a, b) :: updValue rest k v

/-- Insert `(k, v)` into an association list sorted by key (the
`std::map` ordering), replacing an existing binding of `k`. -/
def insSorted : List (Nat × Nat) → Nat → Nat → List (Nat × Nat)
  | [], k, v => [(k, v)]
  | (a, b) :: rest, k, v =>
    if k < a then (k, v) :: (a, b) :: rest
    else if k = a then (k, v) :: rest
    else (a, b) :: insSorted rest k v

/-- State of a fully-associative level (`class fa_cache_sim_t`).  The C++
object carries the whole base-class state (including the base `tags` and
`srcs` arrays allocated by `cache_sim_t::init` with `sets == 1`) plus its
own `std::map<uint64_t, uint64_t> tags`, which shadows the base array by
name inside `fa_cache_sim_t`'s member functions only; here the map is kept
as a key-sorted association list `fa_tags` from line number to tag. -/
structure fa_cache_sim_t where
  base : cache_sim_t
  fa_tags : List (Nat × Nat)
deriving DecidableEq, Repr

/-- Lookup of `fa_cache_sim_t::check_tag`: find `addr >> idx_shift` in the
map and return the stored tag (the C function returns a pointer to the
mapped value). -/
def fa_cache_sim_t.fa_check (f : fa_cache_sim_t) (addr : Nat) : Option Nat :=
  f.fa_tags.lookup (addr >>> f.base.idx_shift)

/-- Model of `fa_cache_sim_t::victimize(uint64_t addr)`.  NOTE: this member
has a different parameter list from the base virtual
`victimize(uint64_t, uint64_t, uint64_t&)`, so in the C++ source it does
NOT override it; `cache_sim_t::access` always dispatches to the base
implementation, and this function is never invoked on any path reachable
from `access`.  It is modelled here for completeness. -/
def fa_cache_sim_t.victimize (f : fa_cache_sim_t) (addr : Nat) : Nat × fa_cache_sim_t :=
  let k := addr >>> f.base.idx_shift
  if f.fa_tags.length = f.base.ways then
    match f.fa_tags.get? ((f.base.lfsr.next).1 % f.base.ways) with
    | some (ko, vo) =>
      (vo, { f with
              base := { f.base with lfsr := (f.base.lfsr.next).2 }
              fa_tags := insSorted (f.fa_tags.filter (fun p => !(p.1 == ko))) k (k ||| VALID) })
    | none => (0, { f with fa_tags := insSorted f.fa_tags k (k ||| VALID) })
  else (0, { f with fa_tags := insSorted f.fa_tags k (k ||| VALID) })

/-- The access path actually executed on a `fa_cache_sim_t` object.  It is
the body of `cache_sim_t::access` where the virtual `check_tag` resolves to
`fa_cache_sim_t::check_tag` (the map lookup) but `victimize` resolves to
the base-class implementation (the derived `victimize` has a different
signature and does not override the virtual), which writes the inherited
flat array and leaves the map untouched.  `none` models the null-pointer
dereference `*check_tag(paddr) |= DIRTY` on a store miss. -/
def fa_cache_sim_t.access (f : fa_cache_sim_t) (vaddr paddr bytes : Nat) (store : Bool) :
    Option (fa_cache_sim_t × List acall × List acall) :=
  let vaddr := vaddr % U64
  let paddr := paddr % U64
  let bytes := bytes % U64
  let c1 :=
    if store then
      { f.base with
        write_accesses := (f.base.write_accesses + 1) % U64
        bytes_written := (f.base.bytes_written + bytes) % U64 }
    else
      { f.base with
        read_accesses := (f.base.read_accesses + 1) % U64
        bytes_read := (f.base.bytes_read + bytes) % U64 }
  let key := paddr >>> c1.idx_shift
  match f.fa_tags.lookup key with
  | some t =>
      if store then some (⟨c1, updValue f.fa_tags key (t ||| DIRTY)⟩, [], [])
      else some (⟨c1, f.fa_tags⟩, [], [])
  | none =>
      let lm := c1.lineMask
      let mcb : List acall :=
        if c1.trace_miss then [⟨vaddr &&& lm, paddr &&& lm, c1.linesz, store⟩] else []
      let c2 :=
        if store then { c1 with write_misses := (c1.write_misses + 1) % U64 }
        else { c1 with read_misses := (c1.read_misses + 1) % U64 }
      let v := c2.victimize paddr (vaddr &&& lm)
      let victim := v.1
      let victim_src := v.2.1
      let c3 := v.2.2
      let wbp :=
        if victim &&& (VALID ||| DIRTY) = VALID ||| DIRTY then
          ({ c3 with writebacks := (c3.writebacks + 1) % U64 },
            if c3.has_mh then
              [(⟨victim_src, ((victim &&& compl64 (VALID ||| DIRTY)) <<< c3.idx_shift) % U64,
                  c3.linesz, true⟩ : acall)]
            else [])
        else (c3, ([] : List acall))
      let c4 := wbp.1
      let wb := wbp.2
      let refill : List acall :=
        if c4.has_mh then [⟨vaddr &&& lm, paddr &&& lm, c4.linesz, false⟩] else []
      if store then
        match f.fa_tags.lookup key with
        | some t =>
            some (⟨c4, updValue f.fa_tags key (t ||| DIRTY)⟩, wb ++ refill, mcb)
        | none => none
      else
        some (⟨c4, f.fa_tags⟩, wb ++ refill, mcb)

/-- A freshly constructed fully-associative level
(`fa_cache_sim_t::fa_cache_sim_t` delegates to the base constructor with
`sets = 1`; the map starts empty). -/
def faFresh (ways linesz : Nat) : fa_cache_sim_t :=
  ⟨freshLevel 1 ways linesz false false, []⟩

/-- A cache level as produced by `cache_sim_t::construct`: either a
set-associative or a fully-associative instance. -/
inductive level where
  | sa (c : cache_sim_t)
  | fa (f : fa_cache_sim_t)
deriving DecidableEq, Repr

/-- Virtual dispatch of `access` on a level. -/
def level.access : level → Nat → Nat → Nat → Bool → Option (level × List acall × List acall)
  | .sa c, v, p, b, s => (c.access v p b s).map (fun r => (.sa r.1, r.2))
  | .fa f, v, p, b, s => (f.access v p b s).map (fun r => (.fa r.1, r.2))

/-- The base-class subobject of a level. -/
def level.base : level → cache_sim_t
  | .sa c => c
  | .fa f => f.base

/-- The seven statistics counters of a level, in declaration order. -/
structure counters where
  read_accesses : Nat
  read_misses : Nat
  bytes_read : Nat
  write_accesses : Nat
  write_misses : Nat
  bytes_written : Nat
  writebacks : Nat
deriving DecidableEq, Repr

/-- Read a level's counters. -/
def cache_sim_t.ctrs (c : cache_sim_t) : counters :=
  ⟨c.read_accesses, c.read_misses, c.bytes_read, c.write_accesses, c.write_misses,
    c.bytes_written, c.writebacks⟩

/-- Read a level's counters through the base subobject. -/
def level.ctrs (l : level) : counters := l.base.ctrs

/-- Model of `set_miss_handler` on a level. -/
def level.set_mh : level → level
  | .sa c => .sa c.set_miss_handler
  | .fa f => .fa { f with base := f.base.set_miss_handler }

/-- Model of `enable_trace_miss` on a level. -/
def level.enable_tm : level → level
  | .sa c => .sa c.enable_tm
  | .fa f => .fa { f with base := f.base.enable_tm }

/-- Index of the first occurrence of `ch` (model of `strchr`; the C call
returns a pointer, `none` models `NULL`). -/
def strchrIdx : List Char → Char → Option Nat
  | [], _ => none
  | a :: rest, ch => if a == ch then some 0 else (strchrIdx rest ch).map (· + 1)

/-- Value of the leading decimal-digit run of a string. -/
def natDigits (s : List Char) : Nat :=
  (s.takeWhile Char.isDigit).foldl (fun a ch => a * 10 + (ch.toNat - 48)) 0

/-- Model of C `atoi`: skip whitespace, accept an optional sign, convert
the leading digit run (overflow of the C `int` is undefined behaviour and
is modelled as the exact value). -/
def atoiInt (s : List Char) : Int :=
  let s1 := s.dropWhile
    (fun ch => ch == ' ' || ch == '\t' || ch == '\n' || ch == '\x0b' || ch == '\x0c' || ch == '\r')
  match s1 with
  | '-' :: rest => - (Int.ofNat (natDigits rest))
  | '+' :: rest => Int.ofNat (natDigits rest)
  | _ => Int.ofNat (natDigits s1)

/-- An `atoi` result converted to `size_t` (conversion to an unsigned
64-bit type reduces modulo `2^64`). -/
def atoiSize (s : List Char) : Nat := (atoiInt s % (U64 : Int)).toNat

/-- Parse of a `sets:ways:linesz` configuration string
(`cache_sim_t::construct`): locate the two ':' separators with `strchr`
(`none` models the `help()` diagnostic-and-exit path when one is missing)
and convert the three pieces with `atoi`.  As in the source, the first two
substrings handed to `atoi` run up to and including the ':' separator. -/
def parseConfig (s : List Char) : Option (Nat × Nat × Nat) :=
  match strchrIdx s ':' with
  | none => none
  | some i =>
    let wp := s.drop (i + 1)
    match strchrIdx wp ':' with
    | none => none
    | some j =>
      some (atoiSize (s.take (i + 1)), atoiSize (wp.take (j + 1)), atoiSize (wp.drop (j + 1)))

/-- The geometry checks of `cache_sim_t::init`; when the result is `false`
the constructor calls `help()`, which prints the usage message to standard
error and exits. -/
def geomOK (sets linesz : Nat) : Bool :=
  !(sets == 0 || (sets &&& (sets - 1)) != 0) &&
  !(decide (linesz < 8) || (linesz &&& (linesz - 1)) != 0)

/-- Model of `cache_sim_t::construct`: parse the configuration string,
choose the fully-associative variant when `ways > 4 && sets == 1`, and run
the constructor (whose `init` performs the geometry checks; the
fully-associative constructor delegates to the base one with `sets = 1`).
`none` models the diagnostic-and-exit paths. -/
def constructLevel (cfg : String) : Option level :=
  match parseConfig cfg.toList with
  | none => none
  | some g =>
    if 4 < g.2.1 && g.1 == 1 then
      if geomOK 1 g.2.2 then some (.fa (faFresh g.2.1 g.2.2)) else none
    else
      if geomOK g.1 g.2.2 then some (.sa (freshLevel g.1 g.2.1 g.2.2 false false)) else none

/-- Model of `init_cache_l2`: requires both L1 caches to exist, otherwise
prints "Cannot define L2 without L1 cache" to standard error and exits
(`none`). -/
def init_cache_l2_model (l1_present : Bool) (cfg : String) : Option level :=
  if l1_present then constructLevel cfg else none

/-- Model of `init_cache_l3`: the level is constructed first (so a
malformed string exits through `help()` in any case), then the presence of
L2 is checked; without it the function prints "Cannot define L3 without L2
cache" to standard error and exits (`none`). -/
def init_cache_l3_model (l2_present : Bool) (cfg : String) : Option level :=
  match constructLevel cfg with
  | none => none
  | some l => if l2_present then some l else none

/-- Memory access types (`enum access_type`, `memtracer.h`). -/
inductive access_type where
  | LOAD
  | STORE
  | FETCH
deriving DecidableEq, Repr

/-- One ingested event (`cachesim_ld` / `cachesim_st` / `cachesim_fc`). -/
structure event where
  vaddr : Nat
  paddr : Nat
  bytes : Nat
  type : access_type
deriving DecidableEq, Repr

/-- A configured hierarchy: the two L1 levels owned by the tracers, plus
the optional L2 and L3. -/
structure hier where
  l1i : level
  l1d : level
  l2 : Option level
  l3 : Option level
deriving DecidableEq, Repr

/-- Replay a list of calls into a level, concatenating outputs. -/
def feedLevel (l : level) : List acall → Option (level × List acall × List acall)
  | [] => some (l, [], [])
  | a :: rest =>
    match l.access a.vaddr a.paddr a.size a.store with
    | none => none
    | some (l1, ds1, mb1) =>
      match feedLevel l1 rest with
      | none => none
      | some (l2, ds2, mb2) => some (l2, ds1 ++ ds2, mb1 ++ mb2)

/-- Replay calls into an optional next level; with no level the calls were
never issued (the caller's `has_mh` is false and its call list empty). -/
def feedOpt : Option level → List acall → Option (Option level × List acall × List acall)
  | none, _ => some (none, [], [])
  | some l, calls => (feedLevel l calls).map (fun r => (some r.1, r.2))

/-- One ingested event pushed through the tracer registry and the
hierarchy: the I-tracer forwards only FETCH (as a non-store), the D-tracer
only LOAD/STORE; the L1 miss-handler calls are replayed into L2 and L2's
into L3.  Returns the new hierarchy and the miss-trace callback
invocations, in order. -/
def hier.step (h : hier) (e : event) : Option (hier × List acall) :=
  let l1res : Option (level × level × List acall × List acall) :=
    match e.type with
    | .FETCH => (h.l1i.access e.vaddr e.paddr e.bytes false).map (fun r => (r.1, h.l1d, r.2))
    | .LOAD => (h.l1d.access e.vaddr e.paddr e.bytes false).map (fun r => (h.l1i, r.1, r.2))
    | .STORE => (h.l1d.access e.vaddr e.paddr e.bytes true).map (fun r => (h.l1i, r.1, r.2))
  match l1res with
  | none => none
  | some (i1, d1, ds1, mb1) =>
    match feedOpt h.l2 ds1 with
    | none => none
    | some (l2x, ds2, mb2) =>
      match feedOpt h.l3 ds2 with
      | none => none
      | some (l3x, _, mb3) => some (⟨i1, d1, l2x, l3x⟩, mb1 ++ mb2 ++ mb3)

/-- Ingest a list of events. -/
def hier.run (h : hier) : List event → Option (hier × List acall)
  | [] => some (h, [])
  | e :: rest =>
    match h.step e with
    | none => none
    | some (h1, mb1) =>
      match h1.run rest with
      | none => none
      | some (h2, mb2) => some (h2, mb1 ++ mb2)

/-- Build a hierarchy from configuration strings, mirroring
`init_cache_l1` (L1I and L1D from the same string), `init_cache_l2`,
`init_cache_l3` (each wiring `set_miss_handler`), and `init_cachesim`
(which enables miss tracing on the outermost present level, or on both L1s
when there is neither L2 nor L3).  `none` models every
diagnostic-and-exit path. -/
def buildHier (cfg1 : String) (cfg2 cfg3 : Option String) : Option hier :=
  match constructLevel cfg1 with
  | none => none
  | some l1 =>
    match cfg2 with
    | none =>
      match cfg3 with
      | some _ => none
      | none => some ⟨l1.enable_tm, l1.enable_tm, none, none⟩
    | some c2 =>
      match constructLevel c2 with
      | none => none
      | some l2 =>
        match cfg3 with
        | none => some ⟨l1.set_mh, l1.set_mh, some l2.enable_tm, none⟩
        | some c3 =>
          match constructLevel c3 with
          | none => none
          | some l3 => some ⟨l1.set_mh, l1.set_mh, some l2.set_mh, some l3.enable_tm⟩

/-- Run a sequence of accesses on a level, keeping only the final state. -/
def runLevel (l : level) : List acall → Option level
  | [] => some l
  | a :: rest =>
    match l.access a.vaddr a.paddr a.size a.store with
    | none => none
    | some (l1, _, _) => runLevel l1 rest

/-- Run a sequence of accesses on a fully-associative level. -/
def runFA (f : fa_cache_sim_t) : List acall → Option fa_cache_sim_t
  | [] => some f
  | a :: rest =>
    match f.access a.vaddr a.paddr a.size a.store with
    | none => none
    | some (f1, _, _) => runFA f1 rest

/-- A tag slot has its VALID bit (bit 63) set. -/
def tagValid (t : Nat) : Prop := t &&& VALID = VALID

/-- The line-number field of a tag slot: bits 0..61, below DIRTY and
VALID. -/
def lineOf (t : Nat) : Nat := t % 2 ^ 62

/-- No two VALID slots of any one set of a set-associative level's tag
array encode the same line number. -/
def noDupSA (c : cache_sim_t) : Prop :=
  ∀ s w1 w2, s < c.sets → w1 < c.ways → w2 < c.ways → w1 ≠ w2 →
    tagValid (c.tags.getD (s * c.ways + w1) 0) →
    tagValid (c.tags.getD (s * c.ways + w2) 0) →
    lineOf (c.tags.getD (s * c.ways + w1) 0) ≠ lineOf (c.tags.getD (s * c.ways + w2) 0)

/-- No two entries of a fully-associative level's map carry the same line
number (the keys are the line numbers). -/
def noDupFA (f : fa_cache_sim_t) : Prop :=
  List.Pairwise (fun a b => a.1 ≠ b.1) f.fa_tags

/-- Well-formed tag-slot value: empty, or a VALID (possibly DIRTY) tag
whose line-number field is below the DIRTY bit. -/
def slotWF (t : Nat) : Prop :=
  t = 0 ∨ ∃ L, L < 2 ^ 61 ∧ (t = 2 ^ 62 * 2 + L ∨ t = 2 ^ 62 * 3 + L)

/-- Invariant of a set-associative level: geometry as established by a
successful `init` (`linesz = 2^idx_shift` with `8 ≤ linesz ≤ 2^63`,
positive `sets` and `ways`, arrays of length `sets*ways`), well-formed tag
slots, line-aligned recorded sources, and no duplicate residency. -/
structure WF (c : cache_sim_t) : Prop where
  tlen : c.tags.length = c.sets * c.ways
  slen : c.srcs.length = c.sets * c.ways
  sets_pos : 0 < c.sets
  ways_pos : 0 < c.ways
  shift_lb : 3 ≤ c.idx_shift
  shift_ub : c.idx_shift ≤ 63
  lsz : c.linesz = 2 ^ c.idx_shift
  twf : ∀ i, slotWF (c.tags.getD i 0)
  swf : ∀ i, c.srcs.getD i 0 % c.linesz = 0
  nodup : noDupSA c

/-- All seven counters of every level of a hierarchy. -/
def hierCtrs (h : hier) : counters × counters × Option counters × Option counters :=
  (h.l1i.ctrs, h.l1d.ctrs, h.l2.map level.ctrs, h.l3.map level.ctrs)

/-- Build a hierarchy from its configuration strings and ingest an event
sequence: one complete simulator run, returning the final hierarchy state
and the miss-trace callback invocations in order. -/
def runSim (cfg1 : String) (cfg2 cfg3 : Option String) (evs : List event) :
    Option (hier × List acall) :=
  match buildHier cfg1 cfg2 cfg3 with
  | none => none
  | some h => h.run evs

/-! ### Bit-level toolkit -/

/-- Splitting a bitwise AND at bit `n` when both low parts are in range. -/
theorem split_and {n a d : Nat} (b c : Nat) (ha : a < 2 ^ n) (hd : d < 2 ^ n) :
    (2 ^ n * b + a) &&& (2 ^ n * c + d) = 2 ^ n * (b &&& c) + (a &&& d) := by
  apply Nat.eq_of_testBit_eq
  intro j
  have had : a &&& d < 2 ^ n := Nat.and_lt_two_pow _ hd
  simp only [Nat.testBit_and, Nat.testBit_mul_pow_two_add _ ha,
    Nat.testBit_mul_pow_two_add _ hd, Nat.testBit_mul_pow_two_add _ had]
  by_cases h : j < n <;> simp [h, Nat.testBit_and]

/-- Splitting a bitwise OR at bit `n` when both low parts are in range. -/
theorem split_or {n a d : Nat} (b c : Nat) (ha : a < 2 ^ n) (hd : d < 2 ^ n) :
    (2 ^ n * b + a) ||| (2 ^ n * c + d) = 2 ^ n * (b ||| c) + (a ||| d) := by
  apply Nat.eq_of_testBit_eq
  intro j
  have had : a ||| d < 2 ^ n := Nat.or_lt_two_pow ha hd
  simp only [Nat.testBit_or, Nat.testBit_mul_pow_two_add _ ha,
    Nat.testBit_mul_pow_two_add _ hd, Nat.testBit_mul_pow_two_add _ had]
  by_cases h : j < n <;> simp [h, Nat.testBit_or]

/-- The 64-bit complement of a low mask is the corresponding high mask. -/
theorem compl64_mask {k : Nat} (hk : k ≤ 64) : compl64 (2 ^ k - 1) = 2 ^ k * (2 ^ (64 - k) - 1) := by
  have h1 : (2 : Nat) ^ 64 = 2 ^ k * 2 ^ (64 - k) := by
    rw [← pow_add]
    congr 1
    omega
  have h2 : (1 : Nat) ≤ 2 ^ k := Nat.one_le_two_pow
  have h3 : (1 : Nat) ≤ 2 ^ (64 - k) := Nat.one_le_two_pow
  have h4 : 2 ^ k * (2 ^ (64 - k) - 1) = 2 ^ k * 2 ^ (64 - k) - 2 ^ k := by
    rw [Nat.mul_sub, Nat.mul_one]
  rw [compl64, U64, h4, ← h1]
  omega

/-- Masking with the complement of a low mask clears the low `k` bits. -/
theorem and_compl_mask_mod (v : Nat) {k : Nat} (hk : k ≤ 64) :
    (v &&& compl64 (2 ^ k - 1)) % 2 ^ k = 0 := by
  have hv : 2 ^ k * (v / 2 ^ k) + v % 2 ^ k = v := Nat.div_add_mod v (2 ^ k)
  have hm : v % 2 ^ k < 2 ^ k := Nat.mod_lt _ (Nat.pos_pow_of_pos _ (by omega))
  have h0 : (0 : Nat) < 2 ^ k := Nat.pos_pow_of_pos _ (by omega)
  calc (v &&& compl64 (2 ^ k - 1)) % 2 ^ k
      = ((2 ^ k * (v / 2 ^ k) + v % 2 ^ k) &&& (2 ^ k * (2 ^ (64 - k) - 1) + 0)) % 2 ^ k := by
        rw [hv, Nat.add_zero, compl64_mask hk]
    _ = (2 ^ k * ((v / 2 ^ k) &&& (2 ^ (64 - k) - 1)) + (v % 2 ^ k &&& 0)) % 2 ^ k := by
        rw [split_and _ _ hm h0]
    _ = 0 := by simp [Nat.mul_mod_right]

/-- A value masked by the complement of a low mask is divisible by the
corresponding power of two. -/
theorem dvd_and_compl_mask (v : Nat) {k : Nat} (hk : k ≤ 64) :
    2 ^ k ∣ (v &&& compl64 (2 ^ k - 1)) :=
  (Nat.dvd_of_mod_eq_zero (and_compl_mask_mod v hk))

/-- A power of two passes the `n & (n-1)` check. -/
theorem pow2_and_pred_eq_zero (k : Nat) : 2 ^ k &&& (2 ^ k - 1) = 0 := by
  rw [Nat.and_pow_two_sub_one_eq_mod, Nat.mod_self]

/-- A nonzero value passing the `n & (n-1)` check is a power of two. -/
theorem pow2_of_and_pred_eq_zero {n : Nat} (h0 : n ≠ 0) (h : n &&& (n - 1) = 0) :
    ∃ k, n = 2 ^ k := by
  induction n using Nat.strong_induction_on with
  | _ n ih =>
    rcases Nat.lt_or_ge n 2 with h2 | h2
    · exact ⟨0, by omega⟩
    · have hdiv : n / 2 &&& (n - 1) / 2 = 0 := by
        have := congrArg (· / 2) h
        simpa [Nat.and_div_two] using this
      rcases Nat.even_or_odd n with he | ho
      · obtain ⟨m, hm⟩ := he
        have hmn : n = 2 * m := by omega
        have hd1 : n / 2 = m := by omega
        have hd2 : (n - 1) / 2 = m - 1 := by omega
        have hmne : m ≠ 0 := by omega
        have hdiv2 : m &&& (m - 1) = 0 := by rw [hd1, hd2] at hdiv; exact hdiv
        obtain ⟨k, hk⟩ := ih m (by omega) hmne hdiv2
        exact ⟨k + 1, by rw [hmn, hk, Nat.pow_succ]; ring⟩
      · obtain ⟨m, hm⟩ := ho
        have hd1 : n / 2 = m := by omega
        have hd2 : (n - 1) / 2 = m := by omega
        have : m = 0 := by
          have := hdiv
          rw [hd1, hd2, Nat.and_self] at this
          exact this
        omega

/-- The fuel-based loop count agrees with `Nat.log2`. -/
theorem ilog2Aux_eq_log2 (fuel : Nat) : ∀ n, n ≤ fuel → ilog2Aux fuel n = Nat.log2 n := by
  induction fuel with
  | zero =>
    intro n hn
    have : n = 0 := by omega
    subst this
    simp [ilog2Aux, Nat.log2]
  | succ fuel ih =>
    intro n hn
    by_cases h1 : n ≤ 1
    · have h2 : ¬ 2 ≤ n := by omega
      rw [Nat.log2]
      simp [ilog2Aux, h1, h2]
    · have h2 : 2 ≤ n := by omega
      have hhalf : n / 2 ≤ fuel := by omega
      rw [Nat.log2]
      simp only [ilog2Aux, if_neg h1, if_pos h2]
      rw [ih (n / 2) hhalf]

/-- The loop in `init` computes the exponent of a power of two. -/
theorem ilog2_two_pow (k : Nat) : ilog2 (2 ^ k) = k := by
  rw [ilog2, ilog2Aux_eq_log2 _ _ (Nat.le_refl _), Nat.log2_two_pow]

/-! #### Values of the masks and encoded tags -/

theorem VALID_eq : VALID = 2 ^ 62 * 2 := by decide

theorem DIRTY_eq : DIRTY = 2 ^ 62 * 1 + 0 := by decide

theorem VD_eq : VALID ||| DIRTY = 2 ^ 62 * 3 := by decide

theorem compl64_DIRTY : compl64 DIRTY = 2 ^ 62 * 2 + (2 ^ 62 - 1) := by decide

theorem compl64_VD : compl64 (VALID ||| DIRTY) = 2 ^ 62 - 1 := by decide

/-- Encoding of a freshly installed tag: for a line number below the DIRTY
bit, `L | VALID` is the slot value `2^62*2 + L`. -/
theorem or_valid_eq {L : Nat} (h : L < 2 ^ 62) : L ||| VALID = 2 ^ 62 * 2 + L := by
  rw [Nat.lor_comm, VALID_eq, ← Nat.mul_add_lt_is_or h 2]

/-- Setting the DIRTY bit on a well-formed slot value. -/
theorem or_dirty_eq {L : Nat} (m : Nat) (h : L < 2 ^ 62) :
    (2 ^ 62 * m + L) ||| DIRTY = 2 ^ 62 * (m ||| 1) + L := by
  have h0 : (0 : Nat) < 2 ^ 62 := by positivity
  rw [DIRTY_eq, split_or m 1 h h0, Nat.or_zero]

/-- Masking DIRTY off a well-formed slot value. -/
theorem and_notdirty_eq {L : Nat} (m : Nat) (h : L < 2 ^ 62) :
    (2 ^ 62 * m + L) &&& compl64 DIRTY = 2 ^ 62 * (m &&& 2) + L := by
  have h1 : (2 : Nat) ^ 62 - 1 < 2 ^ 62 := by omega
  rw [compl64_DIRTY, split_and m 2 h h1, Nat.and_pow_two_sub_one_eq_mod, Nat.mod_eq_of_lt h]

/-- The VALID+DIRTY test on a well-formed slot value. -/
theorem and_vd_eq {L : Nat} (m : Nat) (h : L < 2 ^ 62) :
    (2 ^ 62 * m + L) &&& (VALID ||| DIRTY) = 2 ^ 62 * (m &&& 3) := by
  have h0 : (0 : Nat) < 2 ^ 62 := by positivity
  rw [VD_eq, show (2 : Nat) ^ 62 * 3 = 2 ^ 62 * 3 + 0 from (Nat.add_zero _).symm,
    split_and m 3 h h0, Nat.and_zero, Nat.add_zero]

/-- The VALID test on a well-formed slot value. -/
theorem and_valid_eq {L : Nat} (m : Nat) (h : L < 2 ^ 62) :
    (2 ^ 62 * m + L) &&& VALID = 2 ^ 62 * (m &&& 2) := by
  have h0 : (0 : Nat) < 2 ^ 62 := by positivity
  rw [VALID_eq, show (2 : Nat) ^ 62 * 2 = 2 ^ 62 * 2 + 0 from (Nat.add_zero _).symm,
    split_and m 2 h h0, Nat.and_zero, Nat.add_zero]

/-- Masking with the complement of VALID and DIRTY extracts the
line-number field. -/
theorem and_nvd_eq (t : Nat) : t &&& compl64 (VALID ||| DIRTY) = t % 2 ^ 62 := by
  rw [compl64_VD, Nat.and_pow_two_sub_one_eq_mod]

/-- The line-number field of a well-formed slot value. -/
theorem lineOf_mul_add {L : Nat} (m : Nat) (h : L < 2 ^ 62) : lineOf (2 ^ 62 * m + L) = L := by
  rw [lineOf, Nat.mul_add_mod, Nat.mod_eq_of_lt h]

/-! #### List access helpers -/

theorem getD_oob {l : List Nat} {i : Nat} (h : l.length ≤ i) : l.getD i 0 = 0 := by
  simp [List.getD_eq_getElem?_getD, List.getElem?_eq_none h]

theorem getD_set_self {l : List Nat} {i : Nat} (h : i < l.length) (v : Nat) :
    (l.set i v).getD i 0 = v := by
  simp [List.getD_eq_getElem?_getD, List.getElem?_set_self h]

theorem getD_set_ne {l : List Nat} {i j : Nat} (h : i ≠ j) (v : Nat) :
    (l.set i v).getD j 0 = l.getD j 0 := by
  simp [List.getD_eq_getElem?_getD, List.getElem?_set_ne h]

theorem getD_replicate {n i : Nat} : (List.replicate n 0).getD i 0 = 0 := by
  rcases Nat.lt_or_ge i n with h | h <;>
    simp [List.getD_eq_getElem?_getD, List.getElem?_replicate, h, Nat.not_lt.mpr]

/-! #### Geometry of the flat tag array -/

theorem flat_lt {sets ways s w : Nat} (hs : s < sets) (hw : w < ways) :
    s * ways + w < sets * ways := by
  calc s * ways + w < s * ways + ways := by omega
    _ = (s + 1) * ways := by ring
    _ ≤ sets * ways := Nat.mul_le_mul_right _ hs

theorem flat_inj {ways s1 w1 s2 w2 : Nat} (hw1 : w1 < ways) (hw2 : w2 < ways)
    (h : s1 * ways + w1 = s2 * ways + w2) : s1 = s2 ∧ w1 = w2 := by
  have hpos : 0 < ways := by omega
  have d1 : (s1 * ways + w1) / ways = s1 := by
    rw [Nat.mul_comm s1 ways, Nat.mul_add_div hpos, Nat.div_eq_of_lt hw1, Nat.add_zero]
  have d2 : (s2 * ways + w2) / ways = s2 := by
    rw [Nat.mul_comm s2 ways, Nat.mul_add_div hpos, Nat.div_eq_of_lt hw2, Nat.add_zero]
  have hs : s1 = s2 := by rw [← d1, ← d2, h]
  subst hs
  exact ⟨rfl, by omega⟩

theorem setIdx_lt {c : cache_sim_t} (h : 0 < c.sets) (p : Nat) : c.setIdx p < c.sets := by
  have hle : (p >>> c.idx_shift) &&& (c.sets - 1) ≤ c.sets - 1 := Nat.and_le_right
  unfold cache_sim_t.setIdx
  omega

/-! #### Characterizations of check_tag -/

theorem check_tag_none_iff {c : cache_sim_t} {p : Nat} :
    c.check_tag p = none ↔
      ∀ i < c.ways, c.tagOf p ≠ c.tags.getD (c.setIdx p * c.ways + i) 0 &&& compl64 DIRTY := by
  unfold cache_sim_t.check_tag
  simp [List.find?_eq_none, List.mem_range]

theorem check_tag_some_spec {c : cache_sim_t} {p j : Nat} (h : c.check_tag p = some j) :
    (∃ i, i < c.ways ∧ j = c.setIdx p * c.ways + i) ∧
      c.tagOf p = c.tags.getD j 0 &&& compl64 DIRTY := by
  unfold cache_sim_t.check_tag at h
  rcases Option.map_eq_some'.mp h with ⟨i, hfind, hj⟩
  have hp := List.find?_some hfind
  have hm := List.mem_of_find?_eq_some hfind
  rw [List.mem_range] at hm
  subst hj
  exact ⟨⟨i, hm, rfl⟩, by simpa using hp⟩

/-! #### Invariance of the lookups under the other record fields -/

theorem check_tag_bumpL (c : cache_sim_t) (x y : Nat) (p : Nat) :
    ({ c with read_accesses := x, bytes_read := y } : cache_sim_t).check_tag p =
      c.check_tag p := rfl

theorem check_tag_bumpS (c : cache_sim_t) (x y : Nat) (p : Nat) :
    ({ c with write_accesses := x, bytes_written := y } : cache_sim_t).check_tag p =
      c.check_tag p := rfl

theorem check_tag_mk (c : cache_sim_t) (lf : lfsr_t) (ts ss : List Nat)
    (ra rm br wa wm bw wk : Nat) (tm hm : Bool) (p : Nat) :
    (cache_sim_t.mk c.sets c.ways c.linesz c.idx_shift lf ts ss ra rm br wa wm bw wk
        tm hm).check_tag p =
      ({ c with tags := ts } : cache_sim_t).check_tag p := rfl

theorem setIdx_mk (c : cache_sim_t) (w l : Nat) (lf : lfsr_t) (ts ss : List Nat)
    (ra rm br wa wm bw wk : Nat) (tm hm : Bool) (p : Nat) :
    (cache_sim_t.mk c.sets w l c.idx_shift lf ts ss ra rm br wa wm bw wk tm hm).setIdx p =
      c.setIdx p := rfl

theorem tagOf_mk (c : cache_sim_t) (s w l : Nat) (lf : lfsr_t) (ts ss : List Nat)
    (ra rm br wa wm bw wk : Nat) (tm hm : Bool) (p : Nat) :
    (cache_sim_t.mk s w l c.idx_shift lf ts ss ra rm br wa wm bw wk tm hm).tagOf p =
      c.tagOf p := rfl

theorem vWay_mk (c : cache_sim_t) (s l i : Nat) (ts ss : List Nat)
    (ra rm br wa wm bw wk : Nat) (tm hm : Bool) :
    (cache_sim_t.mk s c.ways l i c.lfsr ts ss ra rm br wa wm bw wk tm hm).vWay = c.vWay := rfl

theorem lineMask_mk (c : cache_sim_t) (s w i : Nat) (lf : lfsr_t) (ts ss : List Nat)
    (ra rm br wa wm bw wk : Nat) (tm hm : Bool) :
    (cache_sim_t.mk s w c.linesz i lf ts ss ra rm br wa wm bw wk tm hm).lineMask =
      c.lineMask := rfl

/-! #### The four outcomes of one access, as explicit equations -/

/-- A load that hits only bumps `read_accesses` and `bytes_read`. -/
theorem access_load_hit {c : cache_sim_t} {v p b i : Nat}
    (h : c.check_tag (p % U64) = some i) :
    c.access v p b false =
      some ({ c with read_accesses := (c.read_accesses + 1) % U64,
                     bytes_read := (c.bytes_read + b % U64) % U64 }, [], []) := by
  simp [cache_sim_t.access, check_tag_bumpL, h]

/-- A store that hits bumps `write_accesses` and `bytes_written` and ORs
DIRTY into the hit slot. -/
theorem access_store_hit {c : cache_sim_t} {v p b i : Nat}
    (h : c.check_tag (p % U64) = some i) :
    c.access v p b true =
      some ({ c with write_accesses := (c.write_accesses + 1) % U64,
                     bytes_written := (c.bytes_written + b % U64) % U64,
                     tags := c.tags.set i (c.tags.getD i 0 ||| DIRTY) }, [], []) := by
  simp [cache_sim_t.access, check_tag_bumpS, h]

/-- A load that misses: counters, victim install, optional writeback,
optional downstream calls and optional callback, all in one equation. -/
theorem access_load_miss {c : cache_sim_t} {v p b : Nat}
    (h : c.check_tag (p % U64) = none) :
    c.access v p b false =
      some
        ({ c with
            read_accesses := (c.read_accesses + 1) % U64
            bytes_read := (c.bytes_read + b % U64) % U64
            read_misses := (c.read_misses + 1) % U64
            lfsr := (c.lfsr.next).2
            tags := c.tags.set (c.setIdx (p % U64) * c.ways + c.vWay) (c.tagOf (p % U64))
            srcs := c.srcs.set (c.setIdx (p % U64) * c.ways + c.vWay) ((v % U64) &&& c.lineMask)
            writebacks :=
              if c.tags.getD (c.setIdx (p % U64) * c.ways + c.vWay) 0 &&& (VALID ||| DIRTY) =
                  VALID ||| DIRTY
              then (c.writebacks + 1) % U64 else c.writebacks },
          (if c.tags.getD (c.setIdx (p % U64) * c.ways + c.vWay) 0 &&& (VALID ||| DIRTY) =
              VALID ||| DIRTY
           then
             if c.has_mh then
               [(⟨c.srcs.getD (c.setIdx (p % U64) * c.ways + c.vWay) 0,
                   ((c.tags.getD (c.setIdx (p % U64) * c.ways + c.vWay) 0 &&&
                     compl64 (VALID ||| DIRTY)) <<< c.idx_shift) % U64,
                   c.linesz, true⟩ : acall)]
             else []
           else []) ++
            (if c.has_mh then
              [(⟨(v % U64) &&& c.lineMask, (p % U64) &&& c.lineMask, c.linesz, false⟩ : acall)]
             else []),
          if c.trace_miss then
            [(⟨(v % U64) &&& c.lineMask, (p % U64) &&& c.lineMask, c.linesz, false⟩ : acall)]
          else []) := by
  simp only [cache_sim_t.access, Bool.false_eq_true, if_false, ite_false, check_tag_bumpL, h]
  simp only [cache_sim_t.victimize, setIdx_mk, tagOf_mk, vWay_mk, lineMask_mk]
  by_cases hd : c.tags.getD (c.setIdx (p % U64) * c.ways + c.vWay) 0 &&& (VALID ||| DIRTY) =
      VALID ||| DIRTY
  · simp only [if_pos hd]
  · simp only [if_neg hd]

/-- A store that misses, when the second `check_tag` finds slot `j` in the
updated array: as the load miss, plus DIRTY ORed into slot `j`. -/
theorem access_store_miss {c : cache_sim_t} {v p b : Nat} {j : Nat}
    (h : c.check_tag (p % U64) = none)
    (h2 : ({ c with
              tags := c.tags.set (c.setIdx (p % U64) * c.ways + c.vWay) (c.tagOf (p % U64)) } :
        cache_sim_t).check_tag (p % U64) = some j) :
    c.access v p b true =
      some
        ({ c with
            write_accesses := (c.write_accesses + 1) % U64
            bytes_written := (c.bytes_written + b % U64) % U64
            write_misses := (c.write_misses + 1) % U64
            lfsr := (c.lfsr.next).2
            tags := (c.tags.set (c.setIdx (p % U64) * c.ways + c.vWay) (c.tagOf (p % U64))).set j
              ((c.tags.set (c.setIdx (p % U64) * c.ways + c.vWay) (c.tagOf (p % U64))).getD j 0 |||
                DIRTY)
            srcs := c.srcs.set (c.setIdx (p % U64) * c.ways + c.vWay) ((v % U64) &&& c.lineMask)
            writebacks :=
              if c.tags.getD (c.setIdx (p % U64) * c.ways + c.vWay) 0 &&& (VALID ||| DIRTY) =
                  VALID ||| DIRTY
              then (c.writebacks + 1) % U64 else c.writebacks },
          (if c.tags.getD (c.setIdx (p % U64) * c.ways + c.vWay) 0 &&& (VALID ||| DIRTY) =
              VALID ||| DIRTY
           then
             if c.has_mh then
               [(⟨c.srcs.getD (c.setIdx (p % U64) * c.ways + c.vWay) 0,
                   ((c.tags.getD (c.setIdx (p % U64) * c.ways + c.vWay) 0 &&&
                     compl64 (VALID ||| DIRTY)) <<< c.idx_shift) % U64,
                   c.linesz, true⟩ : acall)]
             else []
           else []) ++
            (if c.has_mh then
              [(⟨(v % U64) &&& c.lineMask, (p % U64) &&& c.lineMask, c.linesz, false⟩ : acall)]
             else []),
          if c.trace_miss then
            [(⟨(v % U64) &&& c.lineMask, (p % U64) &&& c.lineMask, c.linesz, true⟩ : acall)]
          else []) := by
  simp only [cache_sim_t.access]
  simp only [eq_self_iff_true, ite_true, check_tag_bumpS, h]
  simp only [cache_sim_t.victimize, setIdx_mk, tagOf_mk, vWay_mk, lineMask_mk]
  by_cases hd : c.tags.getD (c.setIdx (p % U64) * c.ways + c.vWay) 0 &&& (VALID ||| DIRTY) =
      VALID ||| DIRTY
  · simp only [if_pos hd, check_tag_mk, h2]
  · simp only [if_neg hd, check_tag_mk, h2]

/-- A store that misses, when the second `check_tag` also fails: the C
code dereferences NULL; the model reports `none`. -/
theorem access_store_miss_crash {c : cache_sim_t} {v p b : Nat}
    (h : c.check_tag (p % U64) = none)
    (h2 : ({ c with
              tags := c.tags.set (c.setIdx (p % U64) * c.ways + c.vWay) (c.tagOf (p % U64)) } :
        cache_sim_t).check_tag (p % U64) = none) :
    c.access v p b true = none := by
  simp only [cache_sim_t.access]
  simp only [eq_self_iff_true, ite_true, check_tag_bumpS, h]
  simp only [cache_sim_t.victimize, setIdx_mk, tagOf_mk, vWay_mk, lineMask_mk]
  by_cases hd : c.tags.getD (c.setIdx (p % U64) * c.ways + c.vWay) 0 &&& (VALID ||| DIRTY) =
      VALID ||| DIRTY
  · simp only [if_pos hd, check_tag_mk, h2]
  · simp only [if_neg hd, check_tag_mk, h2]

/-! #### The refill always reinstates a findable tag -/

theorem find?_eq_of_pointwise {l : List Nat} {q : Nat → Bool} {t : Nat}
    (hall : ∀ x ∈ l, q x = (x == t)) (hmem : t ∈ l) : l.find? q = some t := by
  induction l with
  | nil => cases hmem
  | cons a as ih =>
    by_cases hat : a = t
    · subst hat
      rw [List.find?_cons_of_pos]
      rw [hall a (List.mem_cons_self a as)]
      simp
    · have hqa : ¬ (q a = true) := by
        rw [hall a (List.mem_cons_self a as)]
        simp [hat]
      rw [List.find?_cons_of_neg _ hqa]
      rcases List.mem_cons.mp hmem with h1 | h1
      · exact absurd h1.symm hat
      · exact ih (fun x hx => hall x (List.mem_cons_of_mem _ hx)) h1

theorem vWay_lt {c : cache_sim_t} (h : 0 < c.ways) : c.vWay < c.ways := Nat.mod_lt _ h

/-- The tag of an address whose line number is in range, in slot form. -/
theorem tagOf_eq {c : cache_sim_t} {p : Nat} (hL : p >>> c.idx_shift < 2 ^ 62) :
    c.tagOf p = 2 ^ 62 * 2 + (p >>> c.idx_shift) := by
  rw [cache_sim_t.tagOf, or_valid_eq hL]

/-- A freshly installed tag is unaffected by the DIRTY mask. -/
theorem tagOf_and_nd {c : cache_sim_t} {p : Nat} (hL : p >>> c.idx_shift < 2 ^ 62) :
    c.tagOf p &&& compl64 DIRTY = c.tagOf p := by
  rw [tagOf_eq hL, and_notdirty_eq 2 hL, show (2 : Nat) &&& 2 = 2 from by decide]

/-- The tag of an address is nonzero. -/
theorem tagOf_pos {c : cache_sim_t} {p : Nat} (hL : p >>> c.idx_shift < 2 ^ 62) :
    0 < c.tagOf p := by
  rw [tagOf_eq hL]
  positivity

/-- A well-formed slot that matches `check_tag`'s comparison holds a VALID
(possibly DIRTY) copy of exactly the looked-up line, and its index is in
range. -/
theorem matched_slot {c : cache_sim_t} (hwf : ∀ i, slotWF (c.tags.getD i 0)) {p j : Nat}
    (hL : p >>> c.idx_shift < 2 ^ 62)
    (hm : c.tagOf p = c.tags.getD j 0 &&& compl64 DIRTY) :
    ∃ m, (m = 2 ∨ m = 3) ∧ c.tags.getD j 0 = 2 ^ 62 * m + (p >>> c.idx_shift) ∧
      j < c.tags.length := by
  rcases hwf j with h0 | ⟨L, hLlt, hform⟩
  · rw [h0, Nat.zero_and] at hm
    have := tagOf_pos hL
    omega
  · have hL62 : L < 2 ^ 62 := by
      have : (2 : Nat) ^ 61 < 2 ^ 62 := by norm_num
      omega
    have hjlen : j < c.tags.length := by
      by_contra hge
      have : c.tags.getD j 0 = 0 := getD_oob (by omega)
      have h22 : (0 : Nat) < 2 ^ 62 * 2 + L := by positivity
      rcases hform with h2 | h2 <;> omega
    rcases hform with h2 | h2
    · rw [h2, and_notdirty_eq 2 hL62, show (2 : Nat) &&& 2 = 2 from by decide] at hm
      rw [tagOf_eq hL] at hm
      exact ⟨2, Or.inl rfl, by rw [h2]; omega, hjlen⟩
    · rw [h2, and_notdirty_eq 3 hL62, show (3 : Nat) &&& 2 = 2 from by decide] at hm
      rw [tagOf_eq hL] at hm
      exact ⟨3, Or.inr rfl, by rw [h2]; omega, hjlen⟩

/-- A well-formed VALID slot in explicit form. -/
theorem valid_wf_form {t : Nat} (h : slotWF t) (hv : tagValid t) :
    ∃ m L, (m = 2 ∨ m = 3) ∧ L < 2 ^ 61 ∧ t = 2 ^ 62 * m + L := by
  rcases h with h0 | ⟨L, hLlt, hform⟩
  · rw [tagValid, h0, Nat.zero_and] at hv
    exact absurd hv.symm (by decide)
  · rcases hform with h2 | h2
    · exact ⟨2, L, Or.inl rfl, hLlt, h2⟩
    · exact ⟨3, L, Or.inr rfl, hLlt, h2⟩

/-- A well-formed slot of the explicit form is VALID. -/
theorem wf_form_valid {m L : Nat} (hm : m = 2 ∨ m = 3) (hL : L < 2 ^ 62) :
    tagValid (2 ^ 62 * m + L) := by
  rw [tagValid, and_valid_eq m hL]
  rcases hm with rfl | rfl <;> decide

/-- After `victimize` installs the tag for `p`, `check_tag p` finds exactly
the slot that was just written (assuming the lookup missed beforehand). -/
theorem check_tag_after_install {c : cache_sim_t} {p : Nat}
    (h : c.check_tag p = none) (hsets : 0 < c.sets) (hways : 0 < c.ways)
    (hlen : c.tags.length = c.sets * c.ways) (hL : p >>> c.idx_shift < 2 ^ 62) :
    ({ c with tags := c.tags.set (c.setIdx p * c.ways + c.vWay) (c.tagOf p) } :
      cache_sim_t).check_tag p = some (c.setIdx p * c.ways + c.vWay) := by
  have hJlen : c.setIdx p * c.ways + c.vWay < c.tags.length := by
    rw [hlen]
    exact flat_lt (setIdx_lt hsets p) (vWay_lt hways)
  have hnone := check_tag_none_iff.mp h
  rw [cache_sim_t.check_tag]
  simp only [setIdx_mk, tagOf_mk]
  have hfind :
      (List.range c.ways).find?
        (fun i => c.tagOf p ==
          (c.tags.set (c.setIdx p * c.ways + c.vWay) (c.tagOf p)).getD
            (c.setIdx p * c.ways + i) 0 &&& compl64 DIRTY) = some c.vWay := by
    apply find?_eq_of_pointwise
    · intro x hx
      rw [List.mem_range] at hx
      by_cases hxv : x = c.vWay
      · subst hxv
        rw [getD_set_self hJlen, tagOf_and_nd hL]
        simp
      · have hne : c.setIdx p * c.ways + c.vWay ≠ c.setIdx p * c.ways + x := by omega
        rw [getD_set_ne hne]
        rw [beq_eq_false_iff_ne.mpr (hnone x hx)]
        simp [hxv]
    · rw [List.mem_range]
      exact vWay_lt hways
  rw [hfind]
  rfl

/-! #### Preservation of the level invariant -/

/-- Line numbers of in-range physical addresses fit under the DIRTY bit. -/
theorem line_lt_61 {c : cache_sim_t} (hk : 3 ≤ c.idx_shift) (p : Nat) :
    (p % U64) >>> c.idx_shift < 2 ^ 61 := by
  have h1 : p % U64 < U64 := Nat.mod_lt _ (by rw [U64]; positivity)
  rw [Nat.shiftRight_eq_div_pow]
  have h2 : (2 : Nat) ^ 3 ≤ 2 ^ c.idx_shift := Nat.pow_le_pow_right (by omega) hk
  have h3 : (p % U64) / 2 ^ c.idx_shift ≤ (p % U64) / 2 ^ 3 :=
    Nat.div_le_div_left h2 (by norm_num)
  have h4 : (p % U64) / 2 ^ 3 < 2 ^ 61 := by
    rw [Nat.div_lt_iff_lt_mul (by norm_num : (0 : Nat) < 2 ^ 3)]
    calc p % U64 < U64 := h1
      _ = 2 ^ 61 * 2 ^ 3 := by norm_num [U64]
  omega

/-- ORing DIRTY into a slot holding a well-formed VALID value keeps the
array well-formed and preserves every slot's validity and line number,
hence no-duplicate residency. -/
theorem noDup_set_dirty {c : cache_sim_t} (_hwf : ∀ i, slotWF (c.tags.getD i 0))
    (hnd : noDupSA c) {i m L : Nat} (hm : m = 2 ∨ m = 3) (hL : L < 2 ^ 61)
    (hold : c.tags.getD i 0 = 2 ^ 62 * m + L) :
    noDupSA ({ c with tags := c.tags.set i (c.tags.getD i 0 ||| DIRTY) } : cache_sim_t) := by
  have hL62 : L < 2 ^ 62 := by
    have : (2 : Nat) ^ 61 < 2 ^ 62 := by norm_num
    omega
  have hilen : i < c.tags.length := by
    by_contra hge
    have h0 : c.tags.getD i 0 = 0 := getD_oob (by omega)
    have : (0 : Nat) < 2 ^ 62 * m + L := by rcases hm with rfl | rfl <;> positivity
    omega
  have hdirty : c.tags.getD i 0 ||| DIRTY = 2 ^ 62 * 3 + L := by
    rw [hold, or_dirty_eq m hL62]
    rcases hm with rfl | rfl
    · rw [show (2 : Nat) ||| 1 = 3 from by decide]
    · rw [show (3 : Nat) ||| 1 = 3 from by decide]
  have hmap : ∀ idx, tagValid ((c.tags.set i (c.tags.getD i 0 ||| DIRTY)).getD idx 0) →
      tagValid (c.tags.getD idx 0) ∧
        lineOf ((c.tags.set i (c.tags.getD i 0 ||| DIRTY)).getD idx 0) =
          lineOf (c.tags.getD idx 0) := by
    intro idx hv
    by_cases hidx : idx = i
    · subst hidx
      rw [getD_set_self hilen] at hv ⊢
      refine ⟨?_, ?_⟩
      · rw [hold]
        exact wf_form_valid hm hL62
      · rw [hdirty, lineOf_mul_add 3 hL62, hold, lineOf_mul_add m hL62]
    · rw [getD_set_ne (fun hh => hidx hh.symm)] at hv ⊢
      exact ⟨hv, rfl⟩
  intro s' w1 w2 hs hw1 hw2 hne hv1 hv2
  have m1 := hmap (s' * c.ways + w1) hv1
  have m2 := hmap (s' * c.ways + w2) hv2
  have := hnd s' w1 w2 hs hw1 hw2 hne m1.1 m2.1
  rw [m1.2, m2.2]
  exact this

/-- Installing the missing line's tag (clean or dirty) in the victim slot
preserves no-duplicate residency: the scan that failed guarantees no other
VALID slot of the set holds that line. -/
theorem noDup_install {c : cache_sim_t} (hwf : ∀ i, slotWF (c.tags.getD i 0))
    (hnd : noDupSA c) (hways : 0 < c.ways) {P T : Nat}
    (h : c.check_tag P = none) (hL : P >>> c.idx_shift < 2 ^ 61)
    (hJlen : c.setIdx P * c.ways + c.vWay < c.tags.length)
    (hT : T = 2 ^ 62 * 2 + (P >>> c.idx_shift) ∨ T = 2 ^ 62 * 3 + (P >>> c.idx_shift)) :
    noDupSA ({ c with
      tags := c.tags.set (c.setIdx P * c.ways + c.vWay) T } : cache_sim_t) := by
  have hL62 : P >>> c.idx_shift < 2 ^ 62 := by
    have : (2 : Nat) ^ 61 < 2 ^ 62 := by norm_num
    omega
  have hnone := check_tag_none_iff.mp h
  have hvw := vWay_lt hways
  have hTvalid : tagValid T := by
    rcases hT with rfl | rfl
    · exact wf_form_valid (Or.inl rfl) hL62
    · exact wf_form_valid (Or.inr rfl) hL62
  have hTline : lineOf T = P >>> c.idx_shift := by
    rcases hT with rfl | rfl
    · exact lineOf_mul_add 2 hL62
    · exact lineOf_mul_add 3 hL62
  have hother : ∀ w, w < c.ways →
      tagValid (c.tags.getD (c.setIdx P * c.ways + w) 0) →
      lineOf (c.tags.getD (c.setIdx P * c.ways + w) 0) ≠ P >>> c.idx_shift := by
    intro w hw hv hline
    rcases valid_wf_form (hwf _) hv with ⟨m, L2, hm, hL2, hform⟩
    have hL2x : L2 < 2 ^ 62 := by
      have : (2 : Nat) ^ 61 < 2 ^ 62 := by norm_num
      omega
    rw [hform, lineOf_mul_add m hL2x] at hline
    subst hline
    apply hnone w hw
    rw [hform, and_notdirty_eq m hL2x, tagOf_eq hL62]
    rcases hm with rfl | rfl
    · rw [show (2 : Nat) &&& 2 = 2 from by decide]
    · rw [show (3 : Nat) &&& 2 = 2 from by decide]
  intro s' w1 w2 hs hw1 hw2 hne hv1 hv2
  by_cases h1 : s' * c.ways + w1 = c.setIdx P * c.ways + c.vWay
  · obtain ⟨hseq, hweq⟩ := flat_inj hw1 hvw h1
    have hne12 : s' * c.ways + w2 ≠ s' * c.ways + w1 := by omega
    have h2ne : s' * c.ways + w2 ≠ c.setIdx P * c.ways + c.vWay := h1 ▸ hne12
    rw [h1] at hv1 ⊢
    rw [getD_set_ne (fun hh => h2ne hh.symm)] at hv2 ⊢
    rw [getD_set_self hJlen] at hv1 ⊢
    rw [hseq] at hv2 ⊢
    rw [hTline]
    intro hline
    exact hother w2 hw2 hv2 hline.symm
  · rw [getD_set_ne (fun hh => h1 hh.symm)] at hv1 ⊢
    by_cases h2 : s' * c.ways + w2 = c.setIdx P * c.ways + c.vWay
    · obtain ⟨hseq, hweq⟩ := flat_inj hw2 hvw h2
      rw [h2] at hv2 ⊢
      rw [getD_set_self hJlen] at hv2 ⊢
      rw [hseq] at hv1 ⊢
      rw [hTline]
      intro hline
      exact hother w1 hw1 hv1 hline
    · rw [getD_set_ne (fun hh => h2 hh.symm)] at hv2 ⊢
      exact hnd s' w1 w2 hs hw1 hw2 hne hv1 hv2

/-- Every access on a well-formed set-associative level succeeds (in
particular the unchecked dereference after a store miss is safe) and
preserves the invariant and the geometry. -/
theorem WF_access {c : cache_sim_t} (hwf : WF c) (v p b : Nat) (s : Bool) :
    ∃ r, c.access v p b s = some r ∧ WF r.1 ∧ r.1.sets = c.sets ∧ r.1.ways = c.ways ∧
      r.1.linesz = c.linesz ∧ r.1.idx_shift = c.idx_shift := by
  have hL61 : (p % U64) >>> c.idx_shift < 2 ^ 61 := line_lt_61 hwf.shift_lb p
  have hL62 : (p % U64) >>> c.idx_shift < 2 ^ 62 := by
    have : (2 : Nat) ^ 61 < 2 ^ 62 := by norm_num
    omega
  have hJlen : c.setIdx (p % U64) * c.ways + c.vWay < c.tags.length := by
    rw [hwf.tlen]
    exact flat_lt (setIdx_lt hwf.sets_pos _) (vWay_lt hwf.ways_pos)
  have hsrc_align : ((v % U64) &&& c.lineMask) % c.linesz = 0 := by
    rw [cache_sim_t.lineMask, hwf.lsz]
    exact and_compl_mask_mod _ (by have := hwf.shift_ub; omega)
  rcases hchk : c.check_tag (p % U64) with _ | i
  · cases s
    · refine ⟨_, access_load_miss hchk, ?_, rfl, rfl, rfl, rfl⟩
      refine ⟨by simp [List.length_set, hwf.tlen], by simp [List.length_set, hwf.slen],
        hwf.sets_pos, hwf.ways_pos, hwf.shift_lb, hwf.shift_ub, hwf.lsz, ?_, ?_, ?_⟩
      · intro idx
        by_cases hidx : idx = c.setIdx (p % U64) * c.ways + c.vWay
        · subst hidx
          rw [getD_set_self hJlen]
          exact Or.inr ⟨_, hL61, Or.inl (tagOf_eq hL62)⟩
        · rw [getD_set_ne (fun hh => hidx hh.symm)]
          exact hwf.twf idx
      · intro idx
        by_cases hidx : idx = c.setIdx (p % U64) * c.ways + c.vWay
        · rw [hidx]
          by_cases hlen : c.setIdx (p % U64) * c.ways + c.vWay < c.srcs.length
          · rw [getD_set_self hlen]
            exact hsrc_align
          · rw [List.set_eq_of_length_le (Nat.le_of_not_lt hlen)]
            exact hwf.swf _
        · rw [getD_set_ne (fun hh => hidx hh.symm)]
          exact hwf.swf idx
      · exact noDup_install hwf.twf hwf.nodup hwf.ways_pos hchk hL61 hJlen
          (Or.inl (tagOf_eq hL62))
    · have h2 := check_tag_after_install hchk hwf.sets_pos hwf.ways_pos hwf.tlen hL62
      refine ⟨_, access_store_miss hchk h2, ?_, rfl, rfl, rfl, rfl⟩
      have hgd : (c.tags.set (c.setIdx (p % U64) * c.ways + c.vWay)
          (c.tagOf (p % U64))).getD (c.setIdx (p % U64) * c.ways + c.vWay) 0 =
            c.tagOf (p % U64) := getD_set_self hJlen _
      rw [hgd, List.set_set]
      have hdirty3 : c.tagOf (p % U64) ||| DIRTY =
          2 ^ 62 * 3 + ((p % U64) >>> c.idx_shift) := by
        rw [tagOf_eq hL62, or_dirty_eq 2 hL62, show (2 : Nat) ||| 1 = 3 from by decide]
      refine ⟨by simp [List.length_set, hwf.tlen], by simp [List.length_set, hwf.slen],
        hwf.sets_pos, hwf.ways_pos, hwf.shift_lb, hwf.shift_ub, hwf.lsz, ?_, ?_, ?_⟩
      · intro idx
        by_cases hidx : idx = c.setIdx (p % U64) * c.ways + c.vWay
        · subst hidx
          rw [getD_set_self hJlen, hdirty3]
          exact Or.inr ⟨_, hL61, Or.inr rfl⟩
        · rw [getD_set_ne (fun hh => hidx hh.symm)]
          exact hwf.twf idx
      · intro idx
        by_cases hidx : idx = c.setIdx (p % U64) * c.ways + c.vWay
        · rw [hidx]
          by_cases hlen : c.setIdx (p % U64) * c.ways + c.vWay < c.srcs.length
          · rw [getD_set_self hlen]
            exact hsrc_align
          · rw [List.set_eq_of_length_le (Nat.le_of_not_lt hlen)]
            exact hwf.swf _
        · rw [getD_set_ne (fun hh => hidx hh.symm)]
          exact hwf.swf idx
      · exact noDup_install hwf.twf hwf.nodup hwf.ways_pos hchk hL61 hJlen
          (Or.inr hdirty3)
  · obtain ⟨⟨i0, hi0, hj⟩, hmatch⟩ := check_tag_some_spec hchk
    obtain ⟨m, hm, hform, hilen⟩ := matched_slot hwf.twf hL62 hmatch
    cases s
    · exact ⟨_, access_load_hit hchk,
        ⟨hwf.tlen, hwf.slen, hwf.sets_pos, hwf.ways_pos, hwf.shift_lb, hwf.shift_ub,
          hwf.lsz, hwf.twf, hwf.swf, hwf.nodup⟩, rfl, rfl, rfl, rfl⟩
    · refine ⟨_, access_store_hit hchk, ?_, rfl, rfl, rfl, rfl⟩
      have hdirty : c.tags.getD i 0 ||| DIRTY = 2 ^ 62 * 3 + ((p % U64) >>> c.idx_shift) := by
        rw [hform, or_dirty_eq m hL62]
        rcases hm with rfl | rfl
        · rw [show (2 : Nat) ||| 1 = 3 from by decide]
        · rw [show (3 : Nat) ||| 1 = 3 from by decide]
      refine ⟨by simp [List.length_set, hwf.tlen], hwf.slen,
        hwf.sets_pos, hwf.ways_pos, hwf.shift_lb, hwf.shift_ub, hwf.lsz, ?_, hwf.swf, ?_⟩
      · intro idx
        by_cases hidx : idx = i
        · subst hidx
          rw [getD_set_self hilen, hdirty]
          exact Or.inr ⟨_, hL61, Or.inr rfl⟩
        · rw [getD_set_ne (fun hh => hidx hh.symm)]
          exact hwf.twf idx
      · exact noDup_set_dirty hwf.twf hwf.nodup hm hL61 hform

/-- A freshly initialized level with a valid geometry satisfies the
invariant. -/
theorem WF_fresh {sets ways k : Nat} (hs : 0 < sets) (hw : 0 < ways) (hk3 : 3 ≤ k)
    (hk : k ≤ 63) (hmf tmf : Bool) : WF (freshLevel sets ways (2 ^ k) hmf tmf) := by
  have hshift : ilog2 (2 ^ k) = k := ilog2_two_pow k
  refine ⟨?_, ?_, hs, hw, ?_, ?_, ?_, ?_, ?_, ?_⟩
  · simp [freshLevel]
  · simp [freshLevel]
  · show 3 ≤ ilog2 (2 ^ k)
    omega
  · show ilog2 (2 ^ k) ≤ 63
    omega
  · show (2 : Nat) ^ k = 2 ^ ilog2 (2 ^ k)
    rw [hshift]
  · intro i
    show slotWF ((List.replicate (sets * ways) 0).getD i 0)
    rw [getD_replicate]
    exact Or.inl rfl
  · intro i
    show (List.replicate (sets * ways) 0).getD i 0 % (2 ^ k) = 0
    rw [getD_replicate, Nat.zero_mod]
  · intro s' w1 w2 _ _ _ _ hv1 _
    exfalso
    rw [tagValid] at hv1
    rw [show (freshLevel sets ways (2 ^ k) hmf tmf).tags = List.replicate (sets * ways) 0
      from rfl, getD_replicate, Nat.zero_and] at hv1
    exact absurd hv1.symm (by decide)

/-- Any state reachable from a well-formed level is well-formed, and the
run never crashes. -/
theorem WF_runState {c : cache_sim_t} (hwf : WF c) (l : List acall) :
    ∃ c1, runState c l = some c1 ∧ WF c1 := by
  induction l generalizing c with
  | nil => exact ⟨c, rfl, hwf⟩
  | cons a rest ih =>
    obtain ⟨⟨ca, ds, mb⟩, hacc, hwfa, _, _, _, _⟩ := WF_access hwf a.vaddr a.paddr a.size a.store
    obtain ⟨c1, hrun, hwf1⟩ := ih hwfa
    refine ⟨c1, ?_, hwf1⟩
    rw [runState, hacc]
    exact hrun

/-! #### Facts about the fully-associative variant -/

/-- An access on a fully-associative level either leaves the map alone or
updates one value in place (never adds or removes a key): the only map
insertions live in the 1-argument `victimize`, which `access` never calls
because it does not override the base virtual. -/
theorem fa_access_tags {f : fa_cache_sim_t} {v p b : Nat} {s : Bool}
    {f1 : fa_cache_sim_t} {ds mb : List acall}
    (h : f.access v p b s = some (f1, ds, mb)) :
    f1.fa_tags = f.fa_tags ∨ ∃ k t, f1.fa_tags = updValue f.fa_tags k t := by
  rcases hlk : f.fa_tags.lookup ((p % U64) >>> f.base.idx_shift) with _ | t
  · cases s
    · simp only [fa_cache_sim_t.access, eq_self_iff_true, ite_true, Bool.false_eq_true, ite_false, hlk] at h
      simp only [Option.some.injEq, Prod.mk.injEq] at h
      obtain ⟨h1, _, _⟩ := h
      rw [← h1]
      exact Or.inl rfl
    · simp only [fa_cache_sim_t.access, eq_self_iff_true, ite_true, Bool.false_eq_true, ite_false, hlk] at h
      exact Option.noConfusion h
  · cases s
    · simp only [fa_cache_sim_t.access, eq_self_iff_true, ite_true, Bool.false_eq_true, ite_false, hlk] at h
      simp only [Option.some.injEq, Prod.mk.injEq] at h
      obtain ⟨h1, _, _⟩ := h
      rw [← h1]
      exact Or.inl rfl
    · simp only [fa_cache_sim_t.access, eq_self_iff_true, ite_true, Bool.false_eq_true, ite_false, hlk] at h
      simp only [Option.some.injEq, Prod.mk.injEq] at h
      obtain ⟨h1, _, _⟩ := h
      rw [← h1]
      exact Or.inr ⟨_, _, rfl⟩

theorem updValue_nil (k t : Nat) : updValue [] k t = [] := rfl

/-- Starting from the empty map, the map stays empty along any run. -/
theorem runFA_tags_nil {f : fa_cache_sim_t} (h0 : f.fa_tags = []) (l : List acall) :
    ∀ f1, runFA f l = some f1 → f1.fa_tags = [] := by
  induction l generalizing f with
  | nil =>
    intro f1 h
    rw [runFA] at h
    cases h
    exact h0
  | cons a rest ih =>
    intro f1 h
    rw [runFA] at h
    rcases hacc : f.access a.vaddr a.paddr a.size a.store with _ | r
    · rw [hacc] at h
      cases h
    · obtain ⟨fa1, ds, mb⟩ := r
      rw [hacc] at h
      have htags := fa_access_tags hacc
      have hnil : fa1.fa_tags = [] := by
        rcases htags with h1 | ⟨k, t, h1⟩
        · rw [h1, h0]
        · rw [h1, h0, updValue_nil]
      exact ih hnil f1 h

/-! #### Further mask facts -/

theorem or_valid_pos (x : Nat) : 0 < x ||| VALID := by
  rcases Nat.eq_zero_or_pos (x ||| VALID) with h0 | h
  · exfalso
    have hvb : VALID.testBit 63 = true := by
      rw [VALID]
      exact Nat.testBit_two_pow_self
    have hb := congrArg (fun t => t.testBit 63) h0
    simp [Nat.testBit_or, hvb] at hb
  · exact h

theorem or_and_absorb (x y : Nat) : (x ||| y) &&& y = y := by
  apply Nat.eq_of_testBit_eq
  intro i
  rw [Nat.testBit_and, Nat.testBit_or]
  cases hx : x.testBit i <;> cases hy : y.testBit i <;> rfl

theorem or_dirty_masked (x : Nat) : (x ||| DIRTY) &&& compl64 DIRTY = x &&& compl64 DIRTY := by
  rw [Nat.and_distrib_right, show DIRTY &&& compl64 DIRTY = 0 from by decide, Nat.or_zero]

/-! #### The configuration parser -/

theorem strchrIdx_none_iff {l : List Char} {ch : Char} :
    strchrIdx l ch = none ↔ l.count ch = 0 := by
  induction l with
  | nil => simp [strchrIdx]
  | cons a rest ih =>
    by_cases ha : a == ch
    · simp [strchrIdx, ha, List.count_cons]
    · simp [strchrIdx, ha, List.count_cons, ih]

theorem strchrIdx_some_count {l : List Char} {ch : Char} :
    ∀ {i : Nat}, strchrIdx l ch = some i →
      (l.drop (i + 1)).count ch = l.count ch - 1 ∧ 0 < l.count ch := by
  induction l with
  | nil => intro i h; cases h
  | cons a rest ih =>
    intro i h
    by_cases ha : a == ch
    · rw [strchrIdx, if_pos ha] at h
      cases h
      simp [List.count_cons, ha]
    · rw [strchrIdx, if_neg ha] at h
      rcases Option.map_eq_some'.mp h with ⟨i0, hrest, hi⟩
      subst hi
      have := ih hrest
      constructor
      · show ((a :: rest).drop (i0 + 1 + 1)).count ch = (a :: rest).count ch - 1
        rw [List.drop_succ_cons]
        simp [List.count_cons, ha, this.1]
      · have h2 := this.2
        rw [List.count_cons]
        omega

/-- Characterization of the `init` geometry check. -/
theorem geomOK_iff {sets linesz : Nat} :
    geomOK sets linesz = true ↔
      (sets ≠ 0 ∧ (∃ k, sets = 2 ^ k) ∧ 8 ≤ linesz ∧ ∃ k, linesz = 2 ^ k) := by
  rw [geomOK]
  simp only [Bool.and_eq_true, Bool.not_eq_true', Bool.or_eq_false_iff, beq_eq_false_iff_ne,
    ne_eq, bne_eq_false_iff_eq, decide_eq_false_iff_not, Nat.not_lt]
  constructor
  · rintro ⟨⟨hs0, hsp⟩, hl8, hlp⟩
    refine ⟨hs0, pow2_of_and_pred_eq_zero hs0 hsp, hl8, ?_⟩
    exact pow2_of_and_pred_eq_zero (by omega) hlp
  · rintro ⟨hs0, ⟨k1, rfl⟩, hl8, ⟨k2, rfl⟩⟩
    exact ⟨⟨hs0, pow2_and_pred_eq_zero k1⟩, hl8, pow2_and_pred_eq_zero k2⟩

/-! ### The claims -/

/-- C1: the claim states that on every level built by the hierarchy
builder — including the FullyAssocCache chosen for `sets==1 && ways>4` —
N identical loads yield `read_accesses = N` and `read_misses = 1`.  The
code contradicts this for the fully-associative variant: its 1-argument
`victimize` does not override the base virtual (different signature), so
`access` installs lines in the inherited array while `check_tag` consults
the never-written `std::map`, and every access misses.  This theorem
evaluates the model at the failing input: the builder maps `"1:5:8"` to a
FullyAssocCache, and two identical 1-byte loads at vaddr=paddr=0 produce
`read_accesses = 2` and `read_misses = 2` where the claim requires
`read_misses = 1`. -/
theorem C1_fa_level_every_load_misses :
    (match constructLevel "1:5:8" with
      | some lv =>
        (runLevel lv [⟨0, 0, 1, false⟩, ⟨0, 0, 1, false⟩]).map
          (fun l2 => (l2.ctrs.read_accesses, l2.ctrs.read_misses))
      | none => none) = some (2, 2) ∧
    (∃ f : fa_cache_sim_t, constructLevel "1:5:8" = some (level.fa f)) := by
  constructor
  · decide
  · exact ⟨faFresh 5 8, by decide⟩

/-- C2 counterexample: with L1D = `1:1:8` chained to a set-associative
L2 = `1:1:8`, the two stores STORE 0x0 then STORE 0x40 do NOT produce
`L2.write_misses = 1` as the claim states: the writeback of line 0 hits in
L2 (the earlier refill installed line 0 there), so `write_misses = 0`. -/
theorem C2_counterexample :
    ¬ ((run2 (freshLevel 1 1 8 true false) (freshLevel 1 1 8 false false)
          [⟨0, 0, 1, true⟩, ⟨0x40, 0x40, 1, true⟩]).map
        (fun r => (r.1.writebacks, r.2.write_accesses, r.2.write_misses)) =
      some (1, 1, 1)) := by
  decide

/-- C2 (amended): with L1D = `1:1:8` chained to a set-associative
L2 = `1:1:8`, STORE vaddr=paddr=0x0 (1 byte) then STORE vaddr=paddr=0x40
(1 byte) yield `L1D.writebacks = 1`, `L2.write_accesses = 1` (the
writeback), and `L2.write_misses = 0`: the writeback of line 0 hits the
line the first refill installed in L2. -/
theorem C2_amended_writeback_hits_l2 :
    (run2 (freshLevel 1 1 8 true false) (freshLevel 1 1 8 false false)
        [⟨0, 0, 1, true⟩, ⟨0x40, 0x40, 1, true⟩]).map
      (fun r => (r.1.writebacks, r.2.write_accesses, r.2.write_misses)) =
    some (1, 1, 0) := by
  decide

/-- C7: the simulator is deterministic.  Two runs from identically
configured hierarchies (same configuration strings, and the LFSR of every
level seeded with the constant 1 by construction) over the same event
sequence produce equal per-level counters and identical miss-callback
sequences.  In this embedding the whole simulator is a pure function of
the configuration strings and the event list — it has no other input
source — so the two runs coincide definitionally. -/
theorem C7_determinism {cfg1 : String} {cfg2 cfg3 : Option String} {evs : List event}
    {r1 r2 : Option (hier × List acall)}
    (h1 : runSim cfg1 cfg2 cfg3 evs = r1) (h2 : runSim cfg1 cfg2 cfg3 evs = r2) :
    r1.map (fun r => hierCtrs r.1) = r2.map (fun r => hierCtrs r.1) ∧
      r1.map (fun r => r.2) = r2.map (fun r => r.2) := by
  subst h1
  subst h2
  exact ⟨rfl, rfl⟩

/-- Witness for C7 at a concrete two-level hierarchy and event list. -/
theorem C7_witness :
    (runSim "1:1:8" (some "2:2:8") none [⟨0, 0, 1, access_type.LOAD⟩]).map
        (fun r => hierCtrs r.1) =
      (runSim "1:1:8" (some "2:2:8") none [⟨0, 0, 1, access_type.LOAD⟩]).map
        (fun r => hierCtrs r.1) ∧
    (runSim "1:1:8" (some "2:2:8") none [⟨0, 0, 1, access_type.LOAD⟩]).map
        (fun r => r.2) =
      (runSim "1:1:8" (some "2:2:8") none [⟨0, 0, 1, access_type.LOAD⟩]).map
        (fun r => r.2) :=
  C7_determinism rfl rfl

theorem geomOK_false_of {sets linesz : Nat}
    (h : sets = 0 ∨ (¬ ∃ k, sets = 2 ^ k) ∨ linesz < 8 ∨ (¬ ∃ k, linesz = 2 ^ k)) :
    geomOK sets linesz = false := by
  rw [Bool.eq_false_iff]
  intro hOK
  obtain ⟨h1, h2, h3, h4⟩ := geomOK_iff.mp hOK
  rcases h with h | h | h | h
  · exact h1 h
  · exact h h2
  · omega
  · exact h h4

/-- C8: every configuration failure is fatal, and no cache level with an
invalid geometry is ever used.  In order: a configuration string with
fewer than two ':' separators makes `construct` call `help()` (modelled as
`none`: `help` prints the usage message to standard error and calls
`exit(1)`); a parsed geometry with `sets == 0`, `sets` not a power of two,
`linesz < 8` or `linesz` not a power of two likewise dies in `init`'s
checks; any successfully constructed level has nonzero power-of-two
`sets`, and power-of-two `linesz ≥ 8`; `init_cache_l2` without both L1
caches prints an error and exits; and `init_cache_l3` without an L2
prints an error and exits. -/
theorem C8_config_failures_are_fatal :
    (∀ s : String, s.toList.count ':' < 2 → constructLevel s = none) ∧
    (∀ s : String, ∀ sets ways linesz : Nat,
      parseConfig s.toList = some (sets, ways, linesz) →
      (sets = 0 ∨ (¬ ∃ k, sets = 2 ^ k) ∨ linesz < 8 ∨ (¬ ∃ k, linesz = 2 ^ k)) →
      constructLevel s = none) ∧
    (∀ s : String, ∀ lv : level, constructLevel s = some lv →
      lv.base.sets ≠ 0 ∧ (∃ k, lv.base.sets = 2 ^ k) ∧ 8 ≤ lv.base.linesz ∧
        (∃ k, lv.base.linesz = 2 ^ k)) ∧
    (∀ s : String, init_cache_l2_model false s = none) ∧
    (∀ s : String, init_cache_l3_model false s = none) := by
  refine ⟨?_, ?_, ?_, ?_, ?_⟩
  · intro s hcount
    have hp : parseConfig s.toList = none := by
      rw [parseConfig]
      rcases h1 : strchrIdx s.toList ':' with _ | i
      · rfl
      · obtain ⟨hdrop, hpos⟩ := strchrIdx_some_count h1
        have h2 : strchrIdx (s.toList.drop (i + 1)) ':' = none :=
          strchrIdx_none_iff.mpr (by omega)
        simp only [h2]
    simp only [constructLevel, hp]
  · intro s sets ways linesz hp hbad
    simp only [constructLevel, hp]
    by_cases hfa : (4 < ways && sets == 1) = true
    · rw [if_pos hfa]
      have hs1 : sets = 1 := by
        have hh := hfa
        simp only [Bool.and_eq_true, beq_iff_eq, decide_eq_true_eq] at hh
        exact hh.2
      have hfail : geomOK 1 linesz = false := by
        apply geomOK_false_of
        rcases hbad with h | h | h | h
        · exact absurd (hs1 ▸ h) (by omega)
        · exact absurd ⟨0, by omega⟩ h
        · exact Or.inr (Or.inr (Or.inl h))
        · exact Or.inr (Or.inr (Or.inr h))
      simp [hfail]
    · rw [if_neg hfa]
      simp [geomOK_false_of hbad]
  · intro s lv h
    simp only [constructLevel] at h
    rcases hp : parseConfig s.toList with _ | g
    · simp only [hp] at h
      exact Option.noConfusion h
    · simp only [hp] at h
      obtain ⟨sets, ways, linesz⟩ := g
      by_cases hfa : (4 < ways && sets == 1) = true
      · rw [if_pos hfa] at h
        by_cases hok : geomOK 1 linesz = true
        · rw [if_pos hok] at h
          injection h with h
          subst h
          obtain ⟨hs0, hsp, hl8, hlp⟩ := geomOK_iff.mp hok
          exact ⟨Nat.one_ne_zero, ⟨0, rfl⟩, hl8, hlp⟩
        · rw [if_neg hok] at h
          exact Option.noConfusion h
      · rw [if_neg hfa] at h
        by_cases hok : geomOK sets linesz = true
        · rw [if_pos hok] at h
          injection h with h
          subst h
          obtain ⟨hs0, hsp, hl8, hlp⟩ := geomOK_iff.mp hok
          exact ⟨hs0, hsp, hl8, hlp⟩
        · rw [if_neg hok] at h
          exact Option.noConfusion h
  · intro s
    rfl
  · intro s
    simp only [init_cache_l3_model]
    rcases h : constructLevel s with _ | l
    · rfl
    · rfl

/-- Witness for C8 at concrete configuration strings: a string without two
':' separators, a linesz-too-small geometry, a well-formed level, and the
L2-without-L1 / L3-without-L2 wiring failures. -/
theorem C8_witness :
    constructLevel "118" = none ∧
    constructLevel "4:1:4" = none ∧
    ((level.sa (freshLevel 2 1 8 false false)).base.sets ≠ 0 ∧
      (∃ k, (level.sa (freshLevel 2 1 8 false false)).base.sets = 2 ^ k) ∧
      8 ≤ (level.sa (freshLevel 2 1 8 false false)).base.linesz ∧
      (∃ k, (level.sa (freshLevel 2 1 8 false false)).base.linesz = 2 ^ k)) ∧
    init_cache_l2_model false "1:1:8" = none ∧
    init_cache_l3_model false "1:1:8" = none :=
  ⟨C8_config_failures_are_fatal.1 "118" (by decide),
   C8_config_failures_are_fatal.2.1 "4:1:4" 4 1 4 (by decide)
     (Or.inr (Or.inr (Or.inl (by decide)))),
   C8_config_failures_are_fatal.2.2.1 "2:1:8" (level.sa (freshLevel 2 1 8 false false))
     (by decide),
   C8_config_failures_are_fatal.2.2.2.1 "1:1:8",
   C8_config_failures_are_fatal.2.2.2.2 "1:1:8"⟩

/-! ### C3: writeback precedes refill, on both level types -/

/-- A store on a fully-associative level whose map lookup misses always
crashes: the base-class `victimize` installed the tag in the inherited
array, not in the map, so the second `check_tag` repeats the failed lookup
and `*check_tag(paddr) |= DIRTY` dereferences NULL (`none`).  In the C
source the writeback and the refill have already been issued to the miss
handler at that point; the crash only loses the dirty-bit update and the
rest of the process. -/
theorem fa_access_store_miss_crash {f : fa_cache_sim_t} {v p b : Nat}
    (h : f.fa_check (p % U64) = none) :
    f.access v p b true = none := by
  have hl : f.fa_tags.lookup ((p % U64) >>> f.base.idx_shift) = none := h
  simp only [fa_cache_sim_t.access, eq_self_iff_true, ite_true]
  simp only [hl]

/-- A load on a fully-associative level whose map lookup misses, as one
equation: the inherited `victimize` displaces a slot of the inherited
array, the optional writeback and the refill go to the miss handler, and
the map is left untouched. -/
theorem fa_access_load_miss {f : fa_cache_sim_t} {v p b : Nat}
    (h : f.fa_check (p % U64) = none) :
    f.access v p b false =
      some
        (⟨{ f.base with
            read_accesses := (f.base.read_accesses + 1) % U64
            bytes_read := (f.base.bytes_read + b % U64) % U64
            read_misses := (f.base.read_misses + 1) % U64
            lfsr := (f.base.lfsr.next).2
            tags := f.base.tags.set
              (f.base.setIdx (p % U64) * f.base.ways + f.base.vWay) (f.base.tagOf (p % U64))
            srcs := f.base.srcs.set
              (f.base.setIdx (p % U64) * f.base.ways + f.base.vWay)
              ((v % U64) &&& f.base.lineMask)
            writebacks :=
              if f.base.tags.getD (f.base.setIdx (p % U64) * f.base.ways + f.base.vWay) 0 &&&
                  (VALID ||| DIRTY) = VALID ||| DIRTY
              then (f.base.writebacks + 1) % U64 else f.base.writebacks },
          f.fa_tags⟩,
          (if f.base.tags.getD (f.base.setIdx (p % U64) * f.base.ways + f.base.vWay) 0 &&&
              (VALID ||| DIRTY) = VALID ||| DIRTY
           then
             if f.base.has_mh then
               [(⟨f.base.srcs.getD (f.base.setIdx (p % U64) * f.base.ways + f.base.vWay) 0,
                   ((f.base.tags.getD (f.base.setIdx (p % U64) * f.base.ways + f.base.vWay) 0 &&&
                     compl64 (VALID ||| DIRTY)) <<< f.base.idx_shift) % U64,
                   f.base.linesz, true⟩ : acall)]
             else []
           else []) ++
            (if f.base.has_mh then
              [(⟨(v % U64) &&& f.base.lineMask, (p % U64) &&& f.base.lineMask, f.base.linesz,
                  false⟩ : acall)]
             else []),
          if f.base.trace_miss then
            [(⟨(v % U64) &&& f.base.lineMask, (p % U64) &&& f.base.lineMask, f.base.linesz,
                false⟩ : acall)]
          else []) := by
  have hl : f.fa_tags.lookup ((p % U64) >>> f.base.idx_shift) = none := h
  simp only [fa_cache_sim_t.access, Bool.false_eq_true, if_false, ite_false]
  simp only [hl]
  simp only [cache_sim_t.victimize, setIdx_mk, tagOf_mk, vWay_mk, lineMask_mk]
  by_cases hd : f.base.tags.getD (f.base.setIdx (p % U64) * f.base.ways + f.base.vWay) 0 &&&
      (VALID ||| DIRTY) = VALID ||| DIRTY
  · simp only [if_pos hd]
  · simp only [if_neg hd]

/-- Set-associative half of C3: on a miss at a level with a miss handler,
if the displaced tag has both VALID and DIRTY set, the level issues
exactly two calls to the handler — first the writeback (victim's recorded
source vaddr, the victim's line-aligned physical address
`(victim & ~(VALID|DIRTY)) << idx_shift`, size `linesz`,
`is_store = true`), then the refill — in that order, and increments
`writebacks`; otherwise only the refill is issued and `writebacks` is
unchanged. -/
theorem sa_writeback_before_refill {c : cache_sim_t} {v p b : Nat} {s : Bool}
    {c1 : cache_sim_t} {ds mb : List acall}
    (hmh : c.has_mh = true)
    (hmiss : c.check_tag (p % U64) = none)
    (hacc : c.access v p b s = some (c1, ds, mb)) :
    (c.tags.getD (c.setIdx (p % U64) * c.ways + c.vWay) 0 &&& (VALID ||| DIRTY) =
        VALID ||| DIRTY →
      ds = [⟨c.srcs.getD (c.setIdx (p % U64) * c.ways + c.vWay) 0,
              ((c.tags.getD (c.setIdx (p % U64) * c.ways + c.vWay) 0 &&&
                compl64 (VALID ||| DIRTY)) <<< c.idx_shift) % U64, c.linesz, true⟩,
            ⟨(v % U64) &&& c.lineMask, (p % U64) &&& c.lineMask, c.linesz, false⟩] ∧
        c1.writebacks = (c.writebacks + 1) % U64) ∧
    (¬ (c.tags.getD (c.setIdx (p % U64) * c.ways + c.vWay) 0 &&& (VALID ||| DIRTY) =
        VALID ||| DIRTY) →
      ds = [⟨(v % U64) &&& c.lineMask, (p % U64) &&& c.lineMask, c.linesz, false⟩] ∧
        c1.writebacks = c.writebacks) := by
  cases s
  · rw [access_load_miss hmiss] at hacc
    simp only [Option.some.injEq, Prod.mk.injEq] at hacc
    obtain ⟨h1, h2, h3⟩ := hacc
    subst h1
    subst h2
    subst h3
    constructor
    · intro hd
      exact ⟨by simp only [hd, hmh, eq_self_iff_true, ite_true, List.cons_append,
          List.nil_append],
        by simp only [hd, eq_self_iff_true, ite_true]⟩
    · intro hd
      exact ⟨by simp only [hmh, eq_self_iff_true, ite_true, if_neg hd, List.nil_append],
        by simp only [if_neg hd]⟩
  · rcases hc2 : ({ c with
        tags := c.tags.set (c.setIdx (p % U64) * c.ways + c.vWay) (c.tagOf (p % U64)) } :
        cache_sim_t).check_tag (p % U64) with _ | j
    · rw [access_store_miss_crash hmiss hc2] at hacc
      exact Option.noConfusion hacc
    · rw [access_store_miss hmiss hc2] at hacc
      simp only [Option.some.injEq, Prod.mk.injEq] at hacc
      obtain ⟨h1, h2, h3⟩ := hacc
      subst h1
      subst h2
      subst h3
      constructor
      · intro hd
        exact ⟨by simp only [hd, hmh, eq_self_iff_true, ite_true, List.cons_append,
            List.nil_append],
          by simp only [hd, eq_self_iff_true, ite_true]⟩
      · intro hd
        exact ⟨by simp only [hmh, eq_self_iff_true, ite_true, if_neg hd, List.nil_append],
          by simp only [if_neg hd]⟩

/-- Fully-associative half of C3: the same writeback-before-refill
discipline, with the miss condition being the map lookup and the victim
displaced from the inherited array by the base-class `victimize`.  When
the triggering access is a store the conclusion holds vacuously: the call
crashes (`fa_access_store_miss_crash`) and never returns a call list. -/
theorem fa_writeback_before_refill {f : fa_cache_sim_t} {v p b : Nat} {s : Bool}
    {f1 : fa_cache_sim_t} {ds mb : List acall}
    (hmh : f.base.has_mh = true)
    (hmiss : f.fa_check (p % U64) = none)
    (hacc : f.access v p b s = some (f1, ds, mb)) :
    (f.base.tags.getD (f.base.setIdx (p % U64) * f.base.ways + f.base.vWay) 0 &&&
        (VALID ||| DIRTY) = VALID ||| DIRTY →
      ds = [⟨f.base.srcs.getD (f.base.setIdx (p % U64) * f.base.ways + f.base.vWay) 0,
              ((f.base.tags.getD (f.base.setIdx (p % U64) * f.base.ways + f.base.vWay) 0 &&&
                compl64 (VALID ||| DIRTY)) <<< f.base.idx_shift) % U64, f.base.linesz, true⟩,
            ⟨(v % U64) &&& f.base.lineMask, (p % U64) &&& f.base.lineMask, f.base.linesz,
              false⟩] ∧
        f1.base.writebacks = (f.base.writebacks + 1) % U64) ∧
    (¬ (f.base.tags.getD (f.base.setIdx (p % U64) * f.base.ways + f.base.vWay) 0 &&&
        (VALID ||| DIRTY) = VALID ||| DIRTY) →
      ds = [⟨(v % U64) &&& f.base.lineMask, (p % U64) &&& f.base.lineMask, f.base.linesz,
              false⟩] ∧
        f1.base.writebacks = f.base.writebacks) := by
  cases s
  · rw [fa_access_load_miss hmiss] at hacc
    simp only [Option.some.injEq, Prod.mk.injEq] at hacc
    obtain ⟨h1, h2, h3⟩ := hacc
    subst h1
    subst h2
    subst h3
    constructor
    · intro hd
      exact ⟨by simp only [hd, hmh, eq_self_iff_true, ite_true, List.cons_append,
          List.nil_append],
        by simp only [hd, eq_self_iff_true, ite_true]⟩
    · intro hd
      exact ⟨by simp only [hmh, eq_self_iff_true, ite_true, if_neg hd, List.nil_append],
        by simp only [if_neg hd]⟩
  · rw [fa_access_store_miss_crash hmiss] at hacc
    exact Option.noConfusion hacc

/-- C3: on a miss at a level with a miss handler — set-associative or
fully-associative — if the tag displaced by `victimize` has both VALID and
DIRTY set, the level issues exactly two calls to the handler, the
writeback (victim's recorded source vaddr, the victim's line-aligned
physical address `(victim & ~(VALID|DIRTY)) << idx_shift`, size `linesz`,
`is_store = true`) strictly before the refill, and increments
`writebacks`; otherwise only the refill is issued and `writebacks` is
unchanged.  On a fully-associative store miss the C source issues those
same calls and then dies dereferencing the NULL second `check_tag`; the
model reports the crashed call as `none` (third conjunct), so the first
two conjuncts cover every access that completes. -/
theorem C3_writeback_before_refill :
    (∀ (c : cache_sim_t) (v p b : Nat) (s : Bool) (c1 : cache_sim_t) (ds mb : List acall),
      c.has_mh = true → c.check_tag (p % U64) = none →
      c.access v p b s = some (c1, ds, mb) →
      (c.tags.getD (c.setIdx (p % U64) * c.ways + c.vWay) 0 &&& (VALID ||| DIRTY) =
          VALID ||| DIRTY →
        ds = [⟨c.srcs.getD (c.setIdx (p % U64) * c.ways + c.vWay) 0,
                ((c.tags.getD (c.setIdx (p % U64) * c.ways + c.vWay) 0 &&&
                  compl64 (VALID ||| DIRTY)) <<< c.idx_shift) % U64, c.linesz, true⟩,
              ⟨(v % U64) &&& c.lineMask, (p % U64) &&& c.lineMask, c.linesz, false⟩] ∧
          c1.writebacks = (c.writebacks + 1) % U64) ∧
      (¬ (c.tags.getD (c.setIdx (p % U64) * c.ways + c.vWay) 0 &&& (VALID ||| DIRTY) =
          VALID ||| DIRTY) →
        ds = [⟨(v % U64) &&& c.lineMask, (p % U64) &&& c.lineMask, c.linesz, false⟩] ∧
          c1.writebacks = c.writebacks)) ∧
    (∀ (f : fa_cache_sim_t) (v p b : Nat) (s : Bool) (f1 : fa_cache_sim_t)
        (ds mb : List acall),
      f.base.has_mh = true → f.fa_check (p % U64) = none →
      f.access v p b s = some (f1, ds, mb) →
      (f.base.tags.getD (f.base.setIdx (p % U64) * f.base.ways + f.base.vWay) 0 &&&
          (VALID ||| DIRTY) = VALID ||| DIRTY →
        ds = [⟨f.base.srcs.getD (f.base.setIdx (p % U64) * f.base.ways + f.base.vWay) 0,
                ((f.base.tags.getD (f.base.setIdx (p % U64) * f.base.ways + f.base.vWay) 0 &&&
                  compl64 (VALID ||| DIRTY)) <<< f.base.idx_shift) % U64, f.base.linesz,
                true⟩,
              ⟨(v % U64) &&& f.base.lineMask, (p % U64) &&& f.base.lineMask, f.base.linesz,
                false⟩] ∧
          f1.base.writebacks = (f.base.writebacks + 1) % U64) ∧
      (¬ (f.base.tags.getD (f.base.setIdx (p % U64) * f.base.ways + f.base.vWay) 0 &&&
          (VALID ||| DIRTY) = VALID ||| DIRTY) →
        ds = [⟨(v % U64) &&& f.base.lineMask, (p % U64) &&& f.base.lineMask, f.base.linesz,
                false⟩] ∧
          f1.base.writebacks = f.base.writebacks)) ∧
    (∀ (f : fa_cache_sim_t) (v p b : Nat),
      f.fa_check (p % U64) = none → f.access v p b true = none) :=
  ⟨fun _ _ _ _ _ _ _ _ hmh hmiss hacc => sa_writeback_before_refill hmh hmiss hacc,
   fun _ _ _ _ _ _ _ _ hmh hmiss hacc => fa_writeback_before_refill hmh hmiss hacc,
   fun _ _ _ _ hmiss => fa_access_store_miss_crash hmiss⟩

/-- Witness for C3: a direct-mapped level holding a dirty copy of line 0
receives a load of line 8 (paddr 0x40) and issues the writeback of line 0
before the refill, bumping the writeback counter; a fully-associative
level whose inherited array holds a dirty tag in the victim way does the
same; and a store missing a fully-associative level crashes. -/
theorem C3_witness :
    (((VALID ||| DIRTY) &&& (VALID ||| DIRTY) = VALID ||| DIRTY →
        [(⟨0, 0, 8, true⟩ : acall), ⟨64, 64, 8, false⟩] =
          [⟨0, 0, 8, true⟩, ⟨64, 64, 8, false⟩] ∧ (1 : Nat) = 1) ∧
      (¬ (VALID ||| DIRTY) &&& (VALID ||| DIRTY) = VALID ||| DIRTY →
        [(⟨0, 0, 8, true⟩ : acall), ⟨64, 64, 8, false⟩] = [⟨64, 64, 8, false⟩] ∧
          (1 : Nat) = 0)) ∧
    (((VALID ||| DIRTY) &&& (VALID ||| DIRTY) = VALID ||| DIRTY →
        [(⟨0, 0, 8, true⟩ : acall), ⟨64, 64, 8, false⟩] =
          [⟨0, 0, 8, true⟩, ⟨64, 64, 8, false⟩] ∧ (1 : Nat) = 1) ∧
      (¬ (VALID ||| DIRTY) &&& (VALID ||| DIRTY) = VALID ||| DIRTY →
        [(⟨0, 0, 8, true⟩ : acall), ⟨64, 64, 8, false⟩] = [⟨64, 64, 8, false⟩] ∧
          (1 : Nat) = 0)) ∧
    (fa_cache_sim_t.mk (freshLevel 1 5 8 true false) []).access 0 0 1 true = none := by
  refine ⟨?_, ?_, C3_writeback_before_refill.2.2 _ 0 0 1 (by decide)⟩
  · have hacc : (cache_sim_t.mk 1 1 8 3 ⟨1⟩ [VALID ||| DIRTY] [0] 0 0 0 0 0 0 0 false
        true).access 64 64 1 false =
        some (cache_sim_t.mk 1 1 8 3 ⟨3489660929⟩ [VALID ||| 8] [64] 1 1 1 0 0 0 1 false true,
          [⟨0, 0, 8, true⟩, ⟨64, 64, 8, false⟩], []) := by decide
    exact C3_writeback_before_refill.1 _ 64 64 1 false _ _ _ rfl (by decide) hacc
  · have hacc : (fa_cache_sim_t.mk (cache_sim_t.mk 1 5 8 3 ⟨1⟩ [0, 0, 0, 0, VALID ||| DIRTY]
        [0, 0, 0, 0, 0] 0 0 0 0 0 0 0 false true) []).access 64 64 1 false =
        some (⟨cache_sim_t.mk 1 5 8 3 ⟨3489660929⟩ [0, 0, 0, 0, VALID ||| 8] [0, 0, 0, 0, 64]
            1 1 1 0 0 0 1 false true, []⟩,
          [⟨0, 0, 8, true⟩, ⟨64, 64, 8, false⟩], []) := by decide
    exact C3_writeback_before_refill.2.1 _ 64 64 1 false _ _ _ rfl (by decide) hacc

/-- A store that misses leaves a DIRTY copy of the accessed line in the
level's own array. -/
theorem store_sets_dirty {c : cache_sim_t} {v p b : Nat}
    {c1 : cache_sim_t} {ds mb : List acall}
    (hmiss : c.check_tag (p % U64) = none)
    (hacc : c.access v p b true = some (c1, ds, mb)) :
    ∃ j, j < c1.tags.length ∧ c1.tags.getD j 0 &&& DIRTY = DIRTY ∧
      c1.tags.getD j 0 &&& compl64 DIRTY = c.tagOf (p % U64) := by
  rcases hc2 : ({ c with
      tags := c.tags.set (c.setIdx (p % U64) * c.ways + c.vWay) (c.tagOf (p % U64)) } :
      cache_sim_t).check_tag (p % U64) with _ | j
  · rw [access_store_miss_crash hmiss hc2] at hacc
    exact Option.noConfusion hacc
  · rw [access_store_miss hmiss hc2] at hacc
    simp only [Option.some.injEq, Prod.mk.injEq] at hacc
    obtain ⟨h1, h2, h3⟩ := hacc
    have hmatch : c.tagOf (p % U64) =
        (c.tags.set (c.setIdx (p % U64) * c.ways + c.vWay) (c.tagOf (p % U64))).getD j 0 &&&
          compl64 DIRTY := (check_tag_some_spec hc2).2
    have hne : (c.tags.set (c.setIdx (p % U64) * c.ways + c.vWay)
        (c.tagOf (p % U64))).getD j 0 ≠ 0 := by
      intro h0
      rw [h0, Nat.zero_and] at hmatch
      exact absurd hmatch (Nat.pos_iff_ne_zero.mp (or_valid_pos ((p % U64) >>> c.idx_shift)))
    have hjlen : j < (c.tags.set (c.setIdx (p % U64) * c.ways + c.vWay)
        (c.tagOf (p % U64))).length := by
      by_contra hge
      exact hne (getD_oob (Nat.le_of_not_lt hge))
    refine ⟨j, ?_, ?_, ?_⟩
    · rw [← h1]
      show j < ((c.tags.set (c.setIdx (p % U64) * c.ways + c.vWay)
          (c.tagOf (p % U64))).set j
        ((c.tags.set (c.setIdx (p % U64) * c.ways + c.vWay) (c.tagOf (p % U64))).getD j 0 |||
          DIRTY)).length
      rw [List.length_set]
      exact hjlen
    · rw [← h1]
      show ((c.tags.set (c.setIdx (p % U64) * c.ways + c.vWay) (c.tagOf (p % U64))).set j
        ((c.tags.set (c.setIdx (p % U64) * c.ways + c.vWay) (c.tagOf (p % U64))).getD j 0 |||
          DIRTY)).getD j 0 &&& DIRTY = DIRTY
      rw [getD_set_self hjlen]
      exact or_and_absorb _ _
    · rw [← h1]
      show ((c.tags.set (c.setIdx (p % U64) * c.ways + c.vWay) (c.tagOf (p % U64))).set j
        ((c.tags.set (c.setIdx (p % U64) * c.ways + c.vWay) (c.tagOf (p % U64))).getD j 0 |||
          DIRTY)).getD j 0 &&& compl64 DIRTY = c.tagOf (p % U64)
      rw [getD_set_self hjlen, or_dirty_masked]
      exact hmatch.symm

/-- Set-associative side of the refill discipline: on a miss at a level
with a miss handler, the refill passed to the next level is always the
last downstream call and carries `is_store = false` even when the
triggering access is a STORE; any downstream call with `is_store = true`
is the writeback of a VALID+DIRTY victim; and on a STORE the dirty effect
is recorded by setting the DIRTY bit on the slot of this level that now
holds the accessed line.  (On the fully-associative variant this fails:
see `C4_fa_store_miss_crashes`.) -/
theorem sa_refill_clean_store_dirty_local {c : cache_sim_t} {v p b : Nat} {s : Bool}
    {c1 : cache_sim_t} {ds mb : List acall}
    (hmh : c.has_mh = true)
    (hmiss : c.check_tag (p % U64) = none)
    (hacc : c.access v p b s = some (c1, ds, mb)) :
    ds.getLast? =
      some ⟨(v % U64) &&& c.lineMask, (p % U64) &&& c.lineMask, c.linesz, false⟩ ∧
    (∀ a ∈ ds, a.store = true →
      c.tags.getD (c.setIdx (p % U64) * c.ways + c.vWay) 0 &&& (VALID ||| DIRTY) =
        VALID ||| DIRTY ∧
      a = ⟨c.srcs.getD (c.setIdx (p % U64) * c.ways + c.vWay) 0,
            ((c.tags.getD (c.setIdx (p % U64) * c.ways + c.vWay) 0 &&&
              compl64 (VALID ||| DIRTY)) <<< c.idx_shift) % U64, c.linesz, true⟩) ∧
    (s = true → ∃ j, j < c1.tags.length ∧
      c1.tags.getD j 0 &&& DIRTY = DIRTY ∧
      c1.tags.getD j 0 &&& compl64 DIRTY = c.tagOf (p % U64)) := by
  have hC3 := sa_writeback_before_refill hmh hmiss hacc
  by_cases hd : c.tags.getD (c.setIdx (p % U64) * c.ways + c.vWay) 0 &&& (VALID ||| DIRTY) =
      VALID ||| DIRTY
  · obtain ⟨hds, _⟩ := hC3.1 hd
    subst hds
    refine ⟨rfl, ?_, ?_⟩
    · intro a ha hst
      rcases ha with _ | ⟨_, _ | ⟨_, hnil⟩⟩
      · exact ⟨hd, rfl⟩
      · exact Bool.noConfusion hst
      · cases hnil
    · intro hs
      subst hs
      exact store_sets_dirty hmiss hacc
  · obtain ⟨hds, _⟩ := hC3.2 hd
    subst hds
    refine ⟨rfl, ?_, ?_⟩
    · intro a ha hst
      rcases ha with _ | ⟨_, hnil⟩
      · exact Bool.noConfusion hst
      · cases hnil
    · intro hs
      subst hs
      exact store_sets_dirty hmiss hacc

/-- C4: the claim says that on every miss with a miss handler the refill
is passed downstream with `is_store = false` and a STORE's dirty effect is
recorded by setting DIRTY on the missing level's newly installed slot.
The code contradicts the second part on the fully-associative variant
(which the builder selects for `sets == 1 && ways > 4`, here `"1:5:8"`):
the second `check_tag` of a store miss consults the never-written map and
returns NULL, so `*check_tag(paddr) |= DIRTY` crashes the process and no
DIRTY bit is ever set.  The theorem evaluates the model at the failing
input: the builder produces the fully-associative variant, a load miss on
it does pass the refill with `is_store = false`, and the same access as a
store returns `none` (the NULL dereference).  On the set-associative type
the claim's property holds: `sa_refill_clean_store_dirty_local`. -/
theorem C4_fa_store_miss_crashes :
    (∃ f : fa_cache_sim_t, constructLevel "1:5:8" = some (level.fa f)) ∧
    (fa_cache_sim_t.mk (freshLevel 1 5 8 true false) []).access 0 0 8 false =
      some (⟨cache_sim_t.mk 1 5 8 3 ⟨3489660929⟩ [0, 0, 0, 0, VALID] [0, 0, 0, 0, 0]
          1 1 8 0 0 0 0 false true, []⟩,
        [⟨0, 0, 8, false⟩], []) ∧
    (fa_cache_sim_t.mk (freshLevel 1 5 8 true false) []).access 0 0 8 true = none :=
  ⟨⟨faFresh 5 8, by decide⟩, by decide, by decide⟩

/-! ### C5: no duplicate residency in any reachable state -/

/-- C5: in every state reachable from a freshly initialized cache level by
any sequence of `access` calls, no two VALID entries of a set of the
set-associative tag array encode the same line number; and in the
fully-associative variant no two entries of its map carry the same line
number (vacuously so: the map, empty at construction, never gains an
entry, because `access` never calls the derived `victimize`). -/
theorem C5_no_duplicate_residency :
    (∀ sets ways k : Nat, ∀ hmf tmf : Bool, ∀ l : List acall, ∀ c : cache_sim_t,
      3 ≤ k → k ≤ 63 → 0 < sets → 0 < ways →
      runState (freshLevel sets ways (2 ^ k) hmf tmf) l = some c → noDupSA c) ∧
    (∀ ways linesz : Nat, ∀ hmf tmf : Bool, ∀ l : List acall, ∀ f : fa_cache_sim_t,
      runFA ⟨freshLevel 1 ways linesz hmf tmf, []⟩ l = some f → noDupFA f) := by
  constructor
  · intro sets ways k hmf tmf l c hk3 hk hs hw hrun
    obtain ⟨c1, hrun1, hwf1⟩ := WF_runState (WF_fresh hs hw hk3 hk hmf tmf) l
    rw [hrun] at hrun1
    injection hrun1 with hh
    rw [hh]
    exact hwf1.nodup
  · intro ways linesz hmf tmf l f hrun
    have hnil : f.fa_tags = [] :=
      runFA_tags_nil (f := ⟨freshLevel 1 ways linesz hmf tmf, []⟩) rfl l f hrun
    rw [noDupFA, hnil]
    exact List.Pairwise.nil

theorem C5_witness :
    noDupSA (freshLevel 1 1 (2 ^ 3) false false) ∧
      noDupFA ⟨freshLevel 1 5 8 false false, []⟩ :=
  ⟨C5_no_duplicate_residency.1 1 1 3 false false [] _ (by decide) (by decide) (by decide)
      (by decide) rfl,
    C5_no_duplicate_residency.2 5 8 false false [] _ rfl⟩

/-! ### C6: alignment of downstream calls and callback invocations -/

theorem mem_if_singleton {α : Type} {a x : α} {cnd : Prop} [Decidable cnd]
    (h : a ∈ (if cnd then [x] else [])) : a = x := by
  by_cases hc : cnd
  · rw [if_pos hc, List.mem_singleton] at h
    exact h
  · rw [if_neg hc] at h
    exact absurd h (List.not_mem_nil a)

theorem mem_if_if_singleton {α : Type} {a x : α} {c1 c2 : Prop} [Decidable c1] [Decidable c2]
    (h : a ∈ (if c1 then (if c2 then [x] else []) else [])) : a = x := by
  by_cases h1 : c1
  · rw [if_pos h1] at h
    exact mem_if_singleton h
  · rw [if_neg h1] at h
    exact absurd h (List.not_mem_nil a)

/-- Set-associative half of C6: in any state reachable from a freshly
initialized set-associative level, every call the level issues to its miss
handler (writeback or refill) and every miss-trace callback invocation
carries a virtual and a physical address congruent to 0 modulo the level's
`linesz`, and a size equal to `linesz`. -/
theorem sa_downstream_calls_line_aligned {sets ways k : Nat} {hmf tmf : Bool}
    {l : List acall} {c : cache_sim_t}
    (hk3 : 3 ≤ k) (hk : k ≤ 63) (hs : 0 < sets) (hw : 0 < ways)
    (hrun : runState (freshLevel sets ways (2 ^ k) hmf tmf) l = some c)
    {v p b : Nat} {s : Bool} {c1 : cache_sim_t} {ds mb : List acall}
    (hacc : c.access v p b s = some (c1, ds, mb))
    {a : acall} (ha : a ∈ ds ∨ a ∈ mb) :
    a.vaddr % c.linesz = 0 ∧ a.paddr % c.linesz = 0 ∧ a.size = c.linesz := by
  have hwf : WF c := by
    obtain ⟨c2, hrun2, hwf2⟩ := WF_runState (WF_fresh hs hw hk3 hk hmf tmf) l
    rw [hrun] at hrun2
    injection hrun2 with hh
    rw [← hh] at hwf2
    exact hwf2
  have hlm : ∀ x : Nat, (x &&& c.lineMask) % c.linesz = 0 := by
    intro x
    rw [cache_sim_t.lineMask, hwf.lsz]
    exact and_compl_mask_mod _ (by have := hwf.shift_ub; omega)
  have hdvdU : (2 : Nat) ^ c.idx_shift ∣ U64 := by
    rw [U64]
    exact Nat.pow_dvd_pow 2 (by have := hwf.shift_ub; omega)
  have hsh : ∀ x : Nat, ((x <<< c.idx_shift) % U64) % c.linesz = 0 := by
    intro x
    rw [hwf.lsz]
    apply Nat.mod_eq_zero_of_dvd
    rw [Nat.dvd_mod_iff hdvdU, Nat.shiftLeft_eq]
    exact dvd_mul_left _ x
  rcases hchk : c.check_tag (p % U64) with _ | i
  · have hL62 : (p % U64) >>> c.idx_shift < 2 ^ 62 := by
      have := line_lt_61 hwf.shift_lb p
      have h2 : (2 : Nat) ^ 61 < 2 ^ 62 := by norm_num
      omega
    cases s
    · rw [access_load_miss hchk] at hacc
      simp only [Option.some.injEq, Prod.mk.injEq] at hacc
      obtain ⟨_, h2, h3⟩ := hacc
      rw [← h2, ← h3] at ha
      rcases ha with hds | hmb2
      · rcases List.mem_append.mp hds with h | h
        · have hax := mem_if_if_singleton h
          subst hax
          exact ⟨hwf.swf _, hsh _, rfl⟩
        · have hax := mem_if_singleton h
          subst hax
          exact ⟨hlm _, hlm _, rfl⟩
      · have hax := mem_if_singleton hmb2
        subst hax
        exact ⟨hlm _, hlm _, rfl⟩
    · have hinst := check_tag_after_install hchk hwf.sets_pos hwf.ways_pos hwf.tlen hL62
      rw [access_store_miss hchk hinst] at hacc
      simp only [Option.some.injEq, Prod.mk.injEq] at hacc
      obtain ⟨_, h2, h3⟩ := hacc
      rw [← h2, ← h3] at ha
      rcases ha with hds | hmb2
      · rcases List.mem_append.mp hds with h | h
        · have hax := mem_if_if_singleton h
          subst hax
          exact ⟨hwf.swf _, hsh _, rfl⟩
        · have hax := mem_if_singleton h
          subst hax
          exact ⟨hlm _, hlm _, rfl⟩
      · have hax := mem_if_singleton hmb2
        subst hax
        exact ⟨hlm _, hlm _, rfl⟩
  · cases s
    · rw [access_load_hit hchk] at hacc
      simp only [Option.some.injEq, Prod.mk.injEq] at hacc
      obtain ⟨_, h2, h3⟩ := hacc
      rw [← h2, ← h3] at ha
      rcases ha with hds | hmb2
      · exact absurd hds (List.not_mem_nil a)
      · exact absurd hmb2 (List.not_mem_nil a)
    · rw [access_store_hit hchk] at hacc
      simp only [Option.some.injEq, Prod.mk.injEq] at hacc
      obtain ⟨_, h2, h3⟩ := hacc
      rw [← h2, ← h3] at ha
      rcases ha with hds | hmb2
      · exact absurd hds (List.not_mem_nil a)
      · exact absurd hmb2 (List.not_mem_nil a)

/-- Along any run of a fully-associative level, the map stays as it
started (empty in reality), the geometry is unchanged and the recorded
sources stay line-aligned: exactly the facts the alignment claim needs.
(The full base-array invariant `WF` does not carry over: because every
fully-associative access misses, the inherited array can legitimately
collect duplicate copies of a line.) -/
theorem runFA_inv {k : Nat} (hk : k ≤ 64) :
    ∀ (l : List acall) (f f1 : fa_cache_sim_t),
      f.fa_tags = [] → f.base.idx_shift = k → f.base.linesz = 2 ^ k →
      (∀ i, f.base.srcs.getD i 0 % 2 ^ k = 0) →
      runFA f l = some f1 →
      f1.fa_tags = [] ∧ f1.base.idx_shift = k ∧ f1.base.linesz = 2 ^ k ∧
        (∀ i, f1.base.srcs.getD i 0 % 2 ^ k = 0) := by
  intro l
  induction l with
  | nil =>
    intro f f1 h0 h1 h2 h3 hrun
    rw [runFA] at hrun
    cases hrun
    exact ⟨h0, h1, h2, h3⟩
  | cons a rest ih =>
    intro f f1 h0 h1 h2 h3 hrun
    rw [runFA] at hrun
    have hchk : f.fa_check (a.paddr % U64) = none := by
      rw [fa_cache_sim_t.fa_check, h0]
      rfl
    rcases hacc : f.access a.vaddr a.paddr a.size a.store with _ | r
    · rw [hacc] at hrun
      cases hrun
    · obtain ⟨fa1, ds, mb⟩ := r
      rw [hacc] at hrun
      cases hst : a.store
      · rw [hst] at hacc
        rw [fa_access_load_miss hchk] at hacc
        simp only [Option.some.injEq, Prod.mk.injEq] at hacc
        obtain ⟨h4, _, _⟩ := hacc
        refine ih fa1 f1 ?_ ?_ ?_ ?_ hrun
        · rw [← h4]
          exact h0
        · rw [← h4]
          exact h1
        · rw [← h4]
          exact h2
        · rw [← h4]
          intro i
          show (f.base.srcs.set (f.base.setIdx (a.paddr % U64) * f.base.ways + f.base.vWay)
              ((a.vaddr % U64) &&& f.base.lineMask)).getD i 0 % 2 ^ k = 0
          by_cases hi : i = f.base.setIdx (a.paddr % U64) * f.base.ways + f.base.vWay
          · rw [hi]
            by_cases hlen : f.base.setIdx (a.paddr % U64) * f.base.ways + f.base.vWay <
                f.base.srcs.length
            · rw [getD_set_self hlen]
              rw [cache_sim_t.lineMask, h2]
              exact and_compl_mask_mod _ hk
            · rw [List.set_eq_of_length_le (Nat.le_of_not_lt hlen)]
              exact h3 _
          · rw [getD_set_ne (fun hh => hi hh.symm)]
            exact h3 i
      · rw [hst] at hacc
        rw [fa_access_store_miss_crash hchk] at hacc
        exact Option.noConfusion hacc

/-- Fully-associative half of C6: under the invariant established by
`runFA_inv`, every miss-handler call and every callback invocation a
fully-associative level issues is line-aligned and of size `linesz`. -/
theorem fa_calls_line_aligned {k : Nat} (hk : k ≤ 64) {f : fa_cache_sim_t}
    (h0 : f.fa_tags = []) (h1 : f.base.idx_shift = k) (h2 : f.base.linesz = 2 ^ k)
    (h3 : ∀ i, f.base.srcs.getD i 0 % 2 ^ k = 0)
    {v p b : Nat} {s : Bool} {f1 : fa_cache_sim_t} {ds mb : List acall}
    (hacc : f.access v p b s = some (f1, ds, mb))
    {a : acall} (ha : a ∈ ds ∨ a ∈ mb) :
    a.vaddr % f.base.linesz = 0 ∧ a.paddr % f.base.linesz = 0 ∧ a.size = f.base.linesz := by
  have hchk : f.fa_check (p % U64) = none := by
    rw [fa_cache_sim_t.fa_check, h0]
    rfl
  have hlm : ∀ x : Nat, (x &&& f.base.lineMask) % f.base.linesz = 0 := by
    intro x
    rw [cache_sim_t.lineMask, h2]
    exact and_compl_mask_mod _ hk
  have hsh : ∀ x : Nat, ((x <<< f.base.idx_shift) % U64) % f.base.linesz = 0 := by
    intro x
    rw [h2, h1]
    apply Nat.mod_eq_zero_of_dvd
    rw [Nat.dvd_mod_iff (by rw [U64]; exact Nat.pow_dvd_pow 2 hk), Nat.shiftLeft_eq]
    exact dvd_mul_left _ x
  cases s
  · rw [fa_access_load_miss hchk] at hacc
    simp only [Option.some.injEq, Prod.mk.injEq] at hacc
    obtain ⟨_, h5, h6⟩ := hacc
    rw [← h5, ← h6] at ha
    rcases ha with hds | hmb2
    · rcases List.mem_append.mp hds with hh | hh
      · have hax := mem_if_if_singleton hh
        subst hax
        refine ⟨?_, hsh _, rfl⟩
        show f.base.srcs.getD (f.base.setIdx (p % U64) * f.base.ways + f.base.vWay) 0 %
            f.base.linesz = 0
        rw [h2]
        exact h3 _
      · have hax := mem_if_singleton hh
        subst hax
        exact ⟨hlm _, hlm _, rfl⟩
    · have hax := mem_if_singleton hmb2
      subst hax
      exact ⟨hlm _, hlm _, rfl⟩
  · rw [fa_access_store_miss_crash hchk] at hacc
    exact Option.noConfusion hacc

/-- C6: on either level type, in any state reachable from a freshly
initialized level, every call the level issues to its miss handler
(writeback or refill) and every miss-trace callback invocation carries a
virtual and a physical address congruent to 0 modulo the issuing level's
`linesz`, and a size equal to that `linesz`. -/
theorem C6_downstream_calls_line_aligned :
    (∀ (sets ways k : Nat) (hmf tmf : Bool) (l : List acall) (c : cache_sim_t),
      3 ≤ k → k ≤ 63 → 0 < sets → 0 < ways →
      runState (freshLevel sets ways (2 ^ k) hmf tmf) l = some c →
      ∀ (v p b : Nat) (s : Bool) (c1 : cache_sim_t) (ds mb : List acall),
        c.access v p b s = some (c1, ds, mb) →
        ∀ a : acall, a ∈ ds ∨ a ∈ mb →
          a.vaddr % c.linesz = 0 ∧ a.paddr % c.linesz = 0 ∧ a.size = c.linesz) ∧
    (∀ (ways k : Nat) (hmf tmf : Bool) (l : List acall) (f : fa_cache_sim_t),
      3 ≤ k → k ≤ 63 →
      runFA ⟨freshLevel 1 ways (2 ^ k) hmf tmf, []⟩ l = some f →
      ∀ (v p b : Nat) (s : Bool) (f1 : fa_cache_sim_t) (ds mb : List acall),
        f.access v p b s = some (f1, ds, mb) →
        ∀ a : acall, a ∈ ds ∨ a ∈ mb →
          a.vaddr % f.base.linesz = 0 ∧ a.paddr % f.base.linesz = 0 ∧
            a.size = f.base.linesz) := by
  constructor
  · intro sets ways k hmf tmf l c hk3 hk hs hw hrun v p b s c1 ds mb hacc a ha
    exact sa_downstream_calls_line_aligned hk3 hk hs hw hrun hacc ha
  · intro ways k hmf tmf l f hk3 hk hrun v p b s f1 ds mb hacc a ha
    have hshift : (freshLevel 1 ways (2 ^ k) hmf tmf).idx_shift = k := ilog2_two_pow k
    obtain ⟨h0, h1, h2, h3⟩ := runFA_inv (show k ≤ 64 by omega) l
      ⟨freshLevel 1 ways (2 ^ k) hmf tmf, []⟩ f rfl hshift rfl
      (fun i => by
        show (List.replicate (1 * ways) 0).getD i 0 % 2 ^ k = 0
        rw [getD_replicate]
        exact Nat.zero_mod _) hrun
    exact fa_calls_line_aligned (show k ≤ 64 by omega) h0 h1 h2 h3 hacc ha

/-- Witness for C6: a fresh direct-mapped level with a handler and miss
tracing takes a load of line 0 and issues an aligned refill and an aligned
callback; a fresh fully-associative level of five ways does the same. -/
theorem C6_witness :
    ((⟨0, 0, 8, false⟩ : acall).vaddr % (freshLevel 1 1 (2 ^ 3) true true).linesz = 0 ∧
      (⟨0, 0, 8, false⟩ : acall).paddr % (freshLevel 1 1 (2 ^ 3) true true).linesz = 0 ∧
      (⟨0, 0, 8, false⟩ : acall).size = (freshLevel 1 1 (2 ^ 3) true true).linesz) ∧
    ((⟨0, 0, 8, false⟩ : acall).vaddr %
        (fa_cache_sim_t.mk (freshLevel 1 5 (2 ^ 3) true true) []).base.linesz = 0 ∧
      (⟨0, 0, 8, false⟩ : acall).paddr %
        (fa_cache_sim_t.mk (freshLevel 1 5 (2 ^ 3) true true) []).base.linesz = 0 ∧
      (⟨0, 0, 8, false⟩ : acall).size =
        (fa_cache_sim_t.mk (freshLevel 1 5 (2 ^ 3) true true) []).base.linesz) := by
  constructor
  · have hacc : (freshLevel 1 1 (2 ^ 3) true true).access 0 0 8 false =
        some (cache_sim_t.mk 1 1 8 3 ⟨3489660929⟩ [VALID] [0] 1 1 8 0 0 0 0 true true,
          [⟨0, 0, 8, false⟩], [⟨0, 0, 8, false⟩]) := by decide
    exact C6_downstream_calls_line_aligned.1 1 1 3 true true []
      (freshLevel 1 1 (2 ^ 3) true true) (by decide) (by decide) (by decide) (by decide) rfl
      0 0 8 false (cache_sim_t.mk 1 1 8 3 ⟨3489660929⟩ [VALID] [0] 1 1 8 0 0 0 0 true true)
      [⟨0, 0, 8, false⟩] [⟨0, 0, 8, false⟩] hacc ⟨0, 0, 8, false⟩
      (Or.inl (List.Mem.head _))
  · have hacc : (fa_cache_sim_t.mk (freshLevel 1 5 (2 ^ 3) true true) []).access 0 0 8 false =
        some (⟨cache_sim_t.mk 1 5 8 3 ⟨3489660929⟩ [0, 0, 0, 0, VALID] [0, 0, 0, 0, 0]
            1 1 8 0 0 0 0 true true, []⟩,
          [⟨0, 0, 8, false⟩], [⟨0, 0, 8, false⟩]) := by decide
    exact C6_downstream_calls_line_aligned.2 5 3 true true []
      (fa_cache_sim_t.mk (freshLevel 1 5 (2 ^ 3) true true) [])
      (by decide) (by decide) rfl 0 0 8 false
      (⟨cache_sim_t.mk 1 5 8 3 ⟨3489660929⟩ [0, 0, 0, 0, VALID] [0, 0, 0, 0, 0]
          1 1 8 0 0 0 0 true true, []⟩)
      [⟨0, 0, 8, false⟩] [⟨0, 0, 8, false⟩] hacc ⟨0, 0, 8, false⟩
      (Or.inl (List.Mem.head _))

/-! ### C9: the unchecked dereference after a store miss is safe -/

/-- C9: in any state reachable from a freshly initialized set-associative
level (so in particular `ways ≥ 1`), when `check_tag` misses, the second
`check_tag` performed after `victimize` finds exactly the slot `victimize`
just installed — so the unchecked `*check_tag(paddr) |= DIRTY` of a store
miss never dereferences NULL (the model never returns `none`) — and the
way count is positive, so `lfsr.next() % ways` never divides by zero. -/
theorem C9_store_miss_deref_safe {sets ways k : Nat} {hmf tmf : Bool}
    {l : List acall} {c : cache_sim_t}
    (hk3 : 3 ≤ k) (hk : k ≤ 63) (hs : 0 < sets) (hw : 0 < ways)
    (hrun : runState (freshLevel sets ways (2 ^ k) hmf tmf) l = some c)
    {v p b : Nat} (hchk : c.check_tag (p % U64) = none) :
    0 < c.ways ∧
      ({ c with
          tags := c.tags.set (c.setIdx (p % U64) * c.ways + c.vWay) (c.tagOf (p % U64)) } :
          cache_sim_t).check_tag (p % U64) =
        some (c.setIdx (p % U64) * c.ways + c.vWay) ∧
      c.access v p b true ≠ none := by
  have hwf : WF c := by
    obtain ⟨c2, hrun2, hwf2⟩ := WF_runState (WF_fresh hs hw hk3 hk hmf tmf) l
    rw [hrun] at hrun2
    injection hrun2 with hh
    rw [← hh] at hwf2
    exact hwf2
  have hL62 : (p % U64) >>> c.idx_shift < 2 ^ 62 := by
    have := line_lt_61 hwf.shift_lb p
    have h2 : (2 : Nat) ^ 61 < 2 ^ 62 := by norm_num
    omega
  refine ⟨hwf.ways_pos, check_tag_after_install hchk hwf.sets_pos hwf.ways_pos hwf.tlen hL62, ?_⟩
  obtain ⟨r, hr, _⟩ := WF_access hwf v p b true
  rw [hr]
  exact fun hh => Option.noConfusion hh

theorem C9_witness :
    0 < (freshLevel 1 1 (2 ^ 3) false false).ways ∧
      ({ freshLevel 1 1 (2 ^ 3) false false with
          tags := (freshLevel 1 1 (2 ^ 3) false false).tags.set
            ((freshLevel 1 1 (2 ^ 3) false false).setIdx (0 % U64) *
                (freshLevel 1 1 (2 ^ 3) false false).ways +
              (freshLevel 1 1 (2 ^ 3) false false).vWay)
            ((freshLevel 1 1 (2 ^ 3) false false).tagOf (0 % U64)) } :
          cache_sim_t).check_tag (0 % U64) =
        some ((freshLevel 1 1 (2 ^ 3) false false).setIdx (0 % U64) *
            (freshLevel 1 1 (2 ^ 3) false false).ways +
          (freshLevel 1 1 (2 ^ 3) false false).vWay) ∧
      (freshLevel 1 1 (2 ^ 3) false false).access 0 0 1 true ≠ none :=
  @C9_store_miss_deref_safe 1 1 3 false false [] (freshLevel 1 1 (2 ^ 3) false false)
    (by decide) (by decide) (by decide) (by decide) rfl 0 0 1 (by decide)

/-! ### C10: a hit changes nothing but the access counters and the DIRTY bit -/

/-- C10: on an access that hits, the only state changes are the bump of
`read_accesses`/`write_accesses`, the addition of the byte count to
`bytes_read`/`bytes_written`, and — on a store only — ORing DIRTY into the
hit slot.  The LFSR, the `srcs` array, all other tag slots, the miss
counters and `writebacks` are untouched, and no miss-handler call and no
miss-trace callback is issued. -/
theorem C10_hit_frame {c : cache_sim_t} {v p b i : Nat}
    (hchk : c.check_tag (p % U64) = some i) (s : Bool) :
    ∃ c1, c.access v p b s = some (c1, [], []) ∧
      c1.lfsr = c.lfsr ∧
      c1.srcs = c.srcs ∧
      c1.read_misses = c.read_misses ∧
      c1.write_misses = c.write_misses ∧
      c1.writebacks = c.writebacks ∧
      (s = false →
        c1.read_accesses = (c.read_accesses + 1) % U64 ∧
        c1.bytes_read = (c.bytes_read + b % U64) % U64 ∧
        c1.write_accesses = c.write_accesses ∧
        c1.bytes_written = c.bytes_written ∧
        c1.tags = c.tags) ∧
      (s = true →
        c1.write_accesses = (c.write_accesses + 1) % U64 ∧
        c1.bytes_written = (c.bytes_written + b % U64) % U64 ∧
        c1.read_accesses = c.read_accesses ∧
        c1.bytes_read = c.bytes_read ∧
        c1.tags = c.tags.set i (c.tags.getD i 0 ||| DIRTY) ∧
        ∀ j, j ≠ i → c1.tags.getD j 0 = c.tags.getD j 0) := by
  cases s
  · refine ⟨_, access_load_hit hchk, rfl, rfl, rfl, rfl, rfl, ?_, ?_⟩
    · exact fun _ => ⟨rfl, rfl, rfl, rfl, rfl⟩
    · exact fun hh => Bool.noConfusion hh
  · refine ⟨_, access_store_hit hchk, rfl, rfl, rfl, rfl, rfl, ?_, ?_⟩
    · exact fun hh => Bool.noConfusion hh
    · intro _
      refine ⟨rfl, rfl, rfl, rfl, rfl, ?_⟩
      intro j hj
      exact getD_set_ne (Ne.symm hj) _

theorem C10_witness :
    ∃ c1, (cache_sim_t.mk 1 1 8 3 ⟨1⟩ [VALID] [0] 0 0 0 0 0 0 0 false false).access 0 0 1 true =
        some (c1, [], []) ∧
      c1.lfsr = ⟨1⟩ ∧
      c1.srcs = [0] ∧
      c1.read_misses = 0 ∧
      c1.write_misses = 0 ∧
      c1.writebacks = 0 ∧
      (true = false →
        c1.read_accesses = (0 + 1) % U64 ∧
        c1.bytes_read = (0 + 1 % U64) % U64 ∧
        c1.write_accesses = 0 ∧
        c1.bytes_written = 0 ∧
        c1.tags = [VALID]) ∧
      (true = true →
        c1.write_accesses = (0 + 1) % U64 ∧
        c1.bytes_written = (0 + 1 % U64) % U64 ∧
        c1.read_accesses = 0 ∧
        c1.bytes_read = 0 ∧
        c1.tags = [VALID].set 0 ([VALID].getD 0 0 ||| DIRTY) ∧
        ∀ j, j ≠ 0 → c1.tags.getD j 0 = [VALID].getD j 0) :=
  @C10_hit_frame (cache_sim_t.mk 1 1 8 3 ⟨1⟩ [VALID] [0] 0 0 0 0 0 0 0 false false)
    0 0 1 0 (by decide) true
